import Mathlib

/-!
# chez-simple-sockets: a shallow embedding of `libchez-simple-sockets.c`

The C functions talk to two outside parties: the operating system (socket,
connect, accept, ...) and the Chez Scheme runtime (`Slock_object`,
`Sdeactivate_thread`, ...).  Each function is embedded as a pure function
from its arguments and a *script* of the answers the outside world gives
to the calls the function makes, to the returned `int` together with the
ordered trace of every outside call the function performed.

A `do { ... } while (res == -1 && errno == EINTR)` loop consumes one scripted
answer per iteration; when the script has no further answer the embedding
yields `none` (the C loop would still be spinning).
-/

namespace ChezSockets

/-- A C pointer into host-owned memory, identified by its address. -/
abbrev Ptr := Nat

/-- The two address families the library serves. -/
inductive Family where
  | AF_INET
  | AF_INET6
deriving DecidableEq, Repr

/-- The `errno` value `EINTR` of `<errno.h>` (its Linux value; no proof below
depends on the number). -/
def EINTR : Int := 4

/-- Value of `sizeof(struct sockaddr_in)` and `sizeof(struct sockaddr_in6)`
from `<netinet/in.h>`. -/
def sizeof_sockaddr : Family → Nat
  | .AF_INET => 16
  | .AF_INET6 => 28

/-- Number of raw address bytes copied out by accept: `sizeof(uint32_t)` and
`sizeof(addr.sin6_addr.s6_addr)`. -/
def sizeof_in_addr : Family → Nat
  | .AF_INET => 4
  | .AF_INET6 => 16

/-- The function `htons` on a little-endian host: swap the two bytes of a
16-bit port. -/
def htons (port : Nat) : Nat := (port % 256) * 256 + (port / 256) % 256

/-- The address that `inet_pton` stores for the literals "127.0.0.1" and
"::1", as raw bytes. -/
def loopback_addr : Family → List Nat
  | .AF_INET => [127, 0, 0, 1]
  | .AF_INET6 => List.replicate 15 0 ++ [1]

/-- The all-zero address: what `memset(&addr, 0, ...)` leaves, and also the
value of `htonl(INADDR_ANY)` and of `in6addr_any`. -/
def zero_addr (fam : Family) : List Nat := List.replicate (sizeof_in_addr fam) 0

/-- One call made by the library to the OS or to the Scheme runtime, with the
arguments that matter and, for OS calls, the value the call returned. -/
inductive Event where
  | Slock_object (p : Ptr)
  | Sunlock_object (p : Ptr)
  | Sdeactivate_thread
  | Sactivate_thread
  | getaddrinfo (address : Ptr) (service : Option Ptr) (ai_family : Family)
  | freeaddrinfo
  | socket (domain : Family) (ret : Int)
  | connect (sock : Int) (sin_port : Nat) (addrlen : Nat) (ret : Int)
  | close (fd : Int)
  | inet_pton (af : Family) (ret : Int)
  | bind (sock : Int) (sin_addr : List Nat) (sin_port : Nat) (ret : Int)
  | listen (sock : Int) (backlog : Int) (ret : Int)
  | accept (sock : Int) (addrlen : Nat) (ret : Int)
  | memcpy (dest : Ptr) (n : Nat)
deriving DecidableEq, Repr

/-- What a connect or listen call hands back: the returned `int` and the trace
of outside calls in program order. -/
structure Result where
  ret : Int
  trace : List Event
deriving DecidableEq, Repr

/-- What an accept call hands back: the returned `int`, the contents of the
caller's `connection` buffer afterwards, and the trace. -/
structure AcceptResult where
  ret : Int
  connection : List Nat
  trace : List Event
deriving DecidableEq, Repr

/-! ## Scripts of the outside world -/

/-- The answer of one `connect(2)` call: its return value and the `errno` it
leaves. -/
structure ConnectOutcome where
  res : Int
  errno : Int
deriving DecidableEq, Repr

/-- One node of the `struct addrinfo` list, together with what the OS answers
while the loop body runs on this node: `sin_port` is the port field of
`ai_addr` as resolved, `sock` is what `socket()` returns, `conn` are the
answers of the successive `connect()` calls. -/
structure Candidate where
  sin_port : Nat
  sock : Int
  conn : List ConnectOutcome
deriving DecidableEq, Repr

/-- The answer of `getaddrinfo`: its return value `gai` and the list stored in
`info` (the empty list is `NULL`). -/
structure Resolution where
  gai : Int
  info : List Candidate
deriving DecidableEq, Repr

/-- The answers of the four library calls made by the listen functions. -/
structure ListenOS where
  inet_pton : Int
  socket : Int
  bind : Int
  listen : Int
deriving DecidableEq, Repr

/-- The answer of one `accept(2)` call: return value, `errno`, and the values
of `addr_len` and of the address field of `addr` after the call. -/
structure AcceptOutcome where
  ret : Int
  errno : Int
  addr_len : Nat
  sin_addr : List Nat
deriving DecidableEq, Repr

/-! ## connect_to_ipv4_host / connect_to_ipv6_host -/

/-- The loop `do { res = connect(sock, in, len); } while (res == -1 && errno == EINTR);`
returning the final `res` and the connect calls made. -/
def connect_retry (sock : Int) (sin_port addrlen : Nat) :
    List ConnectOutcome → Option (Int × List Event)
  | [] => none
  | o :: rest =>
    if o.res == -1 && o.errno == EINTR then
      (connect_retry sock sin_port addrlen rest).map
        (fun r => (r.1, Event.connect sock sin_port addrlen o.res :: r.2))
    else
      some (o.res, [Event.connect sock sin_port addrlen o.res])

/-- The loop `for (tmp = info; tmp != NULL; tmp = tmp->ai_next)`, started with
the current values of `sock` and `err`; returns their values when the loop
is left, and the calls made. -/
def connect_loop (fam : Family) (port : Nat) :
    List Candidate → Int → Int → Option (Int × Int × List Event)
  | [], sock, err => some (sock, err, [])
  | tmp :: next, _, _ =>
    let sock := tmp.sock
    if sock == -1 then
      -- err = -2; continue;
      (connect_loop fam port next sock (-2)).map
        (fun r => (r.1, r.2.1, Event.socket fam sock :: r.2.2))
    else
      let sin_port := if port != 0 then htons port else tmp.sin_port
      match connect_retry sock sin_port (sizeof_sockaddr fam) tmp.conn with
      | none => none
      | some (res, calls) =>
        if res != 0 then
          -- close(sock); err = -3; continue;
          (connect_loop fam port next sock (-3)).map
            (fun r => (r.1, r.2.1,
              Event.socket fam sock :: (calls ++ Event.close sock :: r.2.2)))
        else
          -- break; (err is 0 from the top of the body)
          some (sock, 0, Event.socket fam sock :: calls)

/-- The calls `Slock_object(address); if (service) Slock_object(service);`. -/
def lock_args (address : Ptr) (service : Option Ptr) : List Event :=
  Event.Slock_object address ::
    (match service with
     | some s => [Event.Slock_object s]
     | none => [])

/-- The calls `Sunlock_object(address); if (service) Sunlock_object(service);`. -/
def unlock_args (address : Ptr) (service : Option Ptr) : List Event :=
  Event.Sunlock_object address ::
    (match service with
     | some s => [Event.Sunlock_object s]
     | none => [])

/-- Common body of `connect_to_ipv4_host` and `connect_to_ipv6_host`, which
differ only in the address family. `service = none` is the NULL pointer. -/
def connect_to_host (fam : Family) (address : Ptr) (service : Option Ptr)
    (port : Nat) (os : Resolution) : Option Result :=
  let entry := lock_args address service ++
    [Event.Sdeactivate_thread, Event.getaddrinfo address service fam]
  if os.gai != 0 || os.info.isEmpty then
    some ⟨-1, entry ++ Event.Sactivate_thread :: unlock_args address service⟩
  else
    -- `int sock;` is indeterminate and `err = 0` here; info is not NULL
    match connect_loop fam port os.info 0 0 with
    | none => none
    | some (sock, err, calls) =>
      some ⟨if err != 0 then err else sock,
        entry ++ calls ++ Event.Sactivate_thread :: unlock_args address service
          ++ [Event.freeaddrinfo]⟩

/-- Embedding of `int connect_to_ipv4_host(const char*, const char*, unsigned short)`. -/
def connect_to_ipv4_host (address : Ptr) (service : Option Ptr) (port : Nat)
    (os : Resolution) : Option Result :=
  connect_to_host Family.AF_INET address service port os

/-- Embedding of `int connect_to_ipv6_host(const char*, const char*, unsigned short)`. -/
def connect_to_ipv6_host (address : Ptr) (service : Option Ptr) (port : Nat)
    (os : Resolution) : Option Result :=
  connect_to_host Family.AF_INET6 address service port os

/-! ## listen_on_ipv4_socket / listen_on_ipv6_socket -/

/-- The part of the listen functions from `socket(...)` on, given the
address now in `addr` and the calls made so far. -/
def listen_from_socket (fam : Family) (sin_addr : List Nat) (port : Nat)
    (backlog : Int) (os : ListenOS) (sofar : List Event) : Result :=
  let sock := os.socket
  if sock == -1 then
    ⟨-2, sofar ++ [Event.socket fam sock]⟩
  else if os.bind == -1 then
    ⟨-3, sofar ++ [Event.socket fam sock,
      Event.bind sock sin_addr (htons port) os.bind, Event.close sock]⟩
  else if os.listen == -1 then
    ⟨-4, sofar ++ [Event.socket fam sock,
      Event.bind sock sin_addr (htons port) os.bind,
      Event.listen sock backlog os.listen, Event.close sock]⟩
  else
    ⟨sock, sofar ++ [Event.socket fam sock,
      Event.bind sock sin_addr (htons port) os.bind,
      Event.listen sock backlog os.listen]⟩

/-- Common body of `listen_on_ipv4_socket` and `listen_on_ipv6_socket`.
`inet_pton` stores the parsed address only when it returns 1; on any
other return the zeroed `addr` is left as it is. -/
def listen_on_socket (fam : Family) (local_ : Int) (port : Nat) (backlog : Int)
    (os : ListenOS) : Result :=
  if local_ != 0 then
    if os.inet_pton == -1 then
      ⟨-1, [Event.inet_pton fam os.inet_pton]⟩
    else
      listen_from_socket fam
        (if os.inet_pton == 1 then loopback_addr fam else zero_addr fam)
        port backlog os [Event.inet_pton fam os.inet_pton]
  else
    listen_from_socket fam (zero_addr fam) port backlog os []

/-- Embedding of `int listen_on_ipv4_socket(int local, unsigned short port, int backlog)`. -/
def listen_on_ipv4_socket (local_ : Int) (port : Nat) (backlog : Int)
    (os : ListenOS) : Result :=
  listen_on_socket Family.AF_INET local_ port backlog os

/-- Embedding of `int listen_on_ipv6_socket(int local, unsigned short port, int backlog)`. -/
def listen_on_ipv6_socket (local_ : Int) (port : Nat) (backlog : Int)
    (os : ListenOS) : Result :=
  listen_on_socket Family.AF_INET6 local_ port backlog os

/-! ## accept_ipv4_connection / accept_ipv6_connection -/

/-- The loop `do { connect_sock = accept(sock, &addr, &addr_len); }
while (connect_sock == -1 && errno == EINTR);` started with the current
`addr_len` and address field; returns `connect_sock`, the final `addr_len`
and address field, and the accept calls made. -/
def accept_retry (sock : Int) :
    Nat → List Nat → List AcceptOutcome → Option (Int × Nat × List Nat × List Event)
  | _, _, [] => none
  | addr_len, _, o :: rest =>
    if o.ret == -1 && o.errno == EINTR then
      (accept_retry sock o.addr_len o.sin_addr rest).map
        (fun r => (r.1, r.2.1, r.2.2.1, Event.accept sock addr_len o.ret :: r.2.2.2))
    else
      some (o.ret, o.addr_len, o.sin_addr, [Event.accept sock addr_len o.ret])

/-- The call `memcpy(dest, src, n)` on byte lists: the first `n` bytes of `dest` are
replaced by the first `n` bytes of `src`. -/
def memcpy (dest src : List Nat) (n : Nat) : List Nat :=
  src.take n ++ dest.drop n

/-- Common body of `accept_ipv4_connection` and `accept_ipv6_connection`.
`connection` is the pointer the caller passes, `buf` the bytes it points to
before the call. -/
def accept_connection (fam : Family) (sock : Int) (connection : Ptr)
    (buf : List Nat) (os : List AcceptOutcome) : Option AcceptResult :=
  match accept_retry sock (sizeof_sockaddr fam) (zero_addr fam) os with
  | none => none
  | some (connect_sock, addr_len, sin_addr, calls) =>
    let region := [Event.Slock_object connection, Event.Sdeactivate_thread] ++ calls
      ++ [Event.Sactivate_thread, Event.Sunlock_object connection]
    if addr_len > sizeof_sockaddr fam then
      some ⟨-1, buf, region ++ [Event.close connect_sock]⟩
    else if connect_sock == -1 then
      some ⟨-1, buf, region⟩
    else
      some ⟨connect_sock, memcpy buf sin_addr (sizeof_in_addr fam),
        region ++ [Event.memcpy connection (sizeof_in_addr fam)]⟩

/-- Embedding of `int accept_ipv4_connection(int sock, uint32_t* connection)`. -/
def accept_ipv4_connection (sock : Int) (connection : Ptr) (buf : List Nat)
    (os : List AcceptOutcome) : Option AcceptResult :=
  accept_connection Family.AF_INET sock connection buf os

/-- Embedding of `int accept_ipv6_connection(int sock, uint8_t* connection)`. -/
def accept_ipv6_connection (sock : Int) (connection : Ptr) (buf : List Nat)
    (os : List AcceptOutcome) : Option AcceptResult :=
  accept_connection Family.AF_INET6 sock connection buf os

/-! ## Vocabulary for stating properties of scripts and traces -/

/-- An answer of `connect` on which the retry loop goes round again:
`res == -1 && errno == EINTR`. -/
def ConnectOutcome.interrupted (o : ConnectOutcome) : Bool :=
  o.res == -1 && o.errno == EINTR

/-- An answer of `accept` on which the retry loop goes round again. -/
def AcceptOutcome.interrupted (o : AcceptOutcome) : Bool :=
  o.ret == -1 && o.errno == EINTR

/-- The first answer in a connect script that is not an interruption, if the
script has one. -/
def final_connect (conn : List ConnectOutcome) : Option ConnectOutcome :=
  conn.find? (fun o => !o.interrupted)

/-- The candidate gets a socket and its connect, once no longer interrupted,
reports success. -/
def Candidate.connects (c : Candidate) : Bool :=
  c.sock != -1 &&
    (match final_connect c.conn with
     | some o => o.res == 0
     | none => false)

/-- The candidate fails: either `socket()` returns -1, or its connect, once no
longer interrupted, reports a failure. -/
def Candidate.fails (c : Candidate) : Bool :=
  c.sock == -1 ||
    (match final_connect c.conn with
     | some o => o.res != 0
     | none => false)

/-- The port field of the address handed to `connect` for candidate `tmp`:
overwritten with `htons(port)` when `port` is not 0, else as resolved. -/
def connect_port (port : Nat) (tmp : Candidate) : Nat :=
  if port != 0 then htons port else tmp.sin_port

/-- Calls into the Scheme runtime. -/
def Event.is_runtime : Event → Bool
  | .Slock_object _ => true
  | .Sunlock_object _ => true
  | .Sdeactivate_thread => true
  | .Sactivate_thread => true
  | _ => false

/-- The system calls that may block: `getaddrinfo`, `connect`, `accept`. -/
def Event.is_blocking : Event → Bool
  | .getaddrinfo _ _ _ => true
  | .connect _ _ _ _ => true
  | .accept _ _ _ => true
  | _ => false

/-- Calls of `socket()`. -/
def Event.is_socket_call : Event → Bool
  | .socket _ _ => true
  | _ => false

/-- Calls of `connect()`. -/
def Event.is_connect_call : Event → Bool
  | .connect _ _ _ _ => true
  | _ => false

/-- Calls of `socket()` that create a socket (the answer is not -1). -/
def Event.creates_socket : Event → Bool
  | .socket _ ret => ret != -1
  | _ => false

/-- Calls of `close()`. -/
def Event.is_close_call : Event → Bool
  | .close _ => true
  | _ => false

/-- Calls of `bind()`. -/
def Event.is_bind_call : Event → Bool
  | .bind _ _ _ _ => true
  | _ => false

/-- Calls of `listen()`. -/
def Event.is_listen_call : Event → Bool
  | .listen _ _ _ => true
  | _ => false

/-- Writes into the caller's peer-address buffer. -/
def Event.is_memcpy_call : Event → Bool
  | .memcpy _ _ => true
  | _ => false

/-- The calls that sit inside a retry-on-EINTR loop: `connect` and `accept`. -/
def Event.is_retried_call : Event → Bool
  | .connect _ _ _ _ => true
  | .accept _ _ _ => true
  | _ => false

/-- The calls the candidate loop can make: `socket`, `connect`, `close`. -/
def Event.is_loop_call : Event → Bool
  | .socket _ _ => true
  | .connect _ _ _ _ => true
  | .close _ => true
  | _ => false

/-- Checker for the descriptor discipline of a trace. `held` is the socket
created by the call and not yet closed, if any. A successful `socket()`
is accepted only while no socket is held and makes its result the held
one; a `close(fd)` is accepted only when `fd` is the held socket and
releases it; a `socket()` returning -1 creates nothing; other calls
change nothing. The answer is `none` when the trace breaks the discipline
and otherwise the socket still held at the end. -/
def fd_discipline : Option Int → List Event → Option (Option Int)
  | held, [] => some held
  | held, Event.socket _ ret :: rest =>
    if ret = -1 then fd_discipline held rest
    else
      match held with
      | none => fd_discipline (some ret) rest
      | some _ => none
  | held, Event.close fd :: rest =>
    if held = some fd then fd_discipline none rest else none
  | held, _ :: rest => fd_discipline held rest

/-- The candidate settles: its attempt comes to an end, because `socket()`
fails or because the connect script holds an answer that is not an
interruption. -/
def Candidate.settles (c : Candidate) : Bool :=
  c.sock == -1 || (final_connect c.conn).isSome

/-- The state in which the candidate loop is left, with the retried `connect`
calls removed from its trace. -/
def loop_observable (x : Option (Int × Int × List Event)) :
    Option (Int × Int × List Event) :=
  x.map (fun R => (R.1, R.2.1, R.2.2.filter (fun e => !e.is_retried_call)))

/-- What the caller of a connect function can observe when interruptions
are to be invisible: the returned value and every outside call other than
the retried `connect`/`accept` calls themselves (so in particular every
socket creation and every close, in order). -/
def Result.observable (r : Result) : Int × List Event :=
  (r.ret, r.trace.filter (fun e => !e.is_retried_call))

/-- What the caller of an accept function can observe: the returned value,
the bytes in the peer-address buffer, and every outside call other than the
retried `accept` calls themselves. -/
def AcceptResult.observable (r : AcceptResult) : Int × List Nat × List Event :=
  (r.ret, r.connection, r.trace.filter (fun e => !e.is_retried_call))

/-! ## Lemmas about the connect retry loop -/

theorem connect_retry_interrupted_append (sock : Int) (p l : Nat)
    (pre rest : List ConnectOutcome) (hpre : ∀ o ∈ pre, o.interrupted = true) :
    connect_retry sock p l (pre ++ rest) =
      (connect_retry sock p l rest).map
        (fun r => (r.1, pre.map (fun o => Event.connect sock p l o.res) ++ r.2)) := by
  induction pre with
  | nil => simp
  | cons o pre ih =>
    have ho : (o.res == -1 && o.errno == EINTR) = true := by
      have := hpre o (List.mem_cons_self _ _)
      simpa [ConnectOutcome.interrupted] using this
    have ih2 := ih (fun x hx => hpre x (List.mem_cons_of_mem _ hx))
    rw [List.cons_append]
    simp only [connect_retry, ho, if_true]
    rw [ih2]
    cases connect_retry sock p l rest <;> simp

theorem connect_retry_final (sock : Int) (p l : Nat) (conn : List ConnectOutcome)
    (o : ConnectOutcome) (h : final_connect conn = some o) :
    ∃ calls, connect_retry sock p l conn
        = some (o.res, calls ++ [Event.connect sock p l o.res]) ∧
      ∀ e ∈ calls, e.is_connect_call = true := by
  induction conn with
  | nil => simp [final_connect] at h
  | cons a conn ih =>
    by_cases ha : (a.res == -1 && a.errno == EINTR) = true
    · have h2 : final_connect conn = some o := by
        simpa [final_connect, List.find?, ConnectOutcome.interrupted, ha] using h
      obtain ⟨calls, hc, hall⟩ := ih h2
      refine ⟨Event.connect sock p l a.res :: calls, ?_, ?_⟩
      · simp [connect_retry, ha, hc]
      · intro e he
        rcases List.mem_cons.1 he with rfl | he
        · rfl
        · exact hall e he
    · have h2 : a = o := by
        simpa [final_connect, List.find?, ConnectOutcome.interrupted, ha] using h
      subst h2
      exact ⟨[], by simp [connect_retry, ha], by simp⟩

theorem connect_retry_none (sock : Int) (p l : Nat) (conn : List ConnectOutcome)
    (h : final_connect conn = none) : connect_retry sock p l conn = none := by
  induction conn with
  | nil => rfl
  | cons a conn ih =>
    by_cases ha : (a.res == -1 && a.errno == EINTR) = true
    · have h2 : final_connect conn = none := by
        simpa [final_connect, List.find?, ConnectOutcome.interrupted, ha] using h
      simp [connect_retry, ha, ih h2]
    · exfalso
      simp [final_connect, List.find?, ConnectOutcome.interrupted, ha] at h

theorem connect_retry_calls (sock : Int) (p l : Nat) (conn : List ConnectOutcome)
    (res : Int) (calls : List Event) (h : connect_retry sock p l conn = some (res, calls)) :
    ∀ e ∈ calls, e.is_connect_call = true := by
  induction conn generalizing res calls with
  | nil => simp [connect_retry] at h
  | cons a conn ih =>
    by_cases ha : (a.res == -1 && a.errno == EINTR) = true
    · simp only [connect_retry, ha, if_true] at h
      cases hr : connect_retry sock p l conn with
      | none => simp [hr] at h
      | some rc =>
        obtain ⟨r, cs⟩ := rc
        simp only [hr, Option.map_some', Option.some.injEq, Prod.mk.injEq] at h
        obtain ⟨_, rfl⟩ := h
        intro e he
        rcases List.mem_cons.1 he with rfl | he
        · rfl
        · exact ih r cs hr e he
    · simp only [connect_retry, ha, Option.some.injEq, Prod.mk.injEq] at h
      obtain ⟨_, rfl⟩ := h
      intro e he
      simp at he
      subst he
      rfl

/-! ## Lemmas about the candidate loop -/

theorem connect_loop_nosock (fam : Family) (port : Nat) (c : Candidate)
    (next : List Candidate) (s e : Int) (h : c.sock = -1) :
    connect_loop fam port (c :: next) s e =
      (connect_loop fam port next (-1) (-2)).map
        (fun r => (r.1, r.2.1, Event.socket fam (-1) :: r.2.2)) := by
  simp [connect_loop, h]

theorem connect_loop_refused (fam : Family) (port : Nat) (c : Candidate)
    (next : List Candidate) (s e res : Int) (calls : List Event) (h : c.sock ≠ -1)
    (hr : connect_retry c.sock (connect_port port c) (sizeof_sockaddr fam) c.conn
      = some (res, calls))
    (hres : res ≠ 0) :
    connect_loop fam port (c :: next) s e =
      (connect_loop fam port next c.sock (-3)).map
        (fun r => (r.1, r.2.1,
          Event.socket fam c.sock :: (calls ++ Event.close c.sock :: r.2.2))) := by
  simp only [connect_port, bne_iff_ne, ne_eq, ite_not] at hr
  simp [connect_loop, h, hr, hres]

theorem connect_loop_connected (fam : Family) (port : Nat) (c : Candidate)
    (next : List Candidate) (s e : Int) (calls : List Event) (h : c.sock ≠ -1)
    (hr : connect_retry c.sock (connect_port port c) (sizeof_sockaddr fam) c.conn
      = some (0, calls)) :
    connect_loop fam port (c :: next) s e
      = some (c.sock, 0, Event.socket fam c.sock :: calls) := by
  simp only [connect_port, bne_iff_ne, ne_eq, ite_not] at hr
  simp [connect_loop, h, hr]

/-- Every way one round of the loop can produce a result. -/
theorem connect_loop_cons_cases (fam : Family) (port : Nat) (c : Candidate)
    (next : List Candidate) (s e : Int) (R : Int × Int × List Event)
    (h : connect_loop fam port (c :: next) s e = some R) :
    (c.sock = -1 ∧ ∃ R', connect_loop fam port next (-1) (-2) = some R' ∧
        R = (R'.1, R'.2.1, Event.socket fam (-1) :: R'.2.2)) ∨
    (c.sock ≠ -1 ∧ ∃ res calls,
        connect_retry c.sock (connect_port port c) (sizeof_sockaddr fam) c.conn
          = some (res, calls) ∧ res ≠ 0 ∧
        ∃ R', connect_loop fam port next c.sock (-3) = some R' ∧
          R = (R'.1, R'.2.1,
            Event.socket fam c.sock :: (calls ++ Event.close c.sock :: R'.2.2))) ∨
    (c.sock ≠ -1 ∧ ∃ calls,
        connect_retry c.sock (connect_port port c) (sizeof_sockaddr fam) c.conn
          = some (0, calls) ∧
        R = (c.sock, 0, Event.socket fam c.sock :: calls)) := by
  by_cases hs : c.sock = -1
  · left
    rw [connect_loop_nosock fam port c next s e hs] at h
    cases hn : connect_loop fam port next (-1) (-2) with
    | none => simp [hn] at h
    | some R' =>
      simp only [hn, Option.map_some', Option.some.injEq] at h
      exact ⟨hs, R', rfl, h.symm⟩
  · right
    cases hr : connect_retry c.sock (connect_port port c) (sizeof_sockaddr fam) c.conn with
    | none =>
      simp only [connect_port, bne_iff_ne, ne_eq, ite_not] at hr
      simp [connect_loop, hs, hr] at h
    | some rc =>
      obtain ⟨res, calls⟩ := rc
      by_cases hres : res = 0
      · right
        subst hres
        rw [connect_loop_connected fam port c next s e calls hs hr] at h
        exact ⟨hs, calls, rfl, (Option.some.inj h).symm⟩
      · left
        rw [connect_loop_refused fam port c next s e res calls hs hr hres] at h
        cases hn : connect_loop fam port next c.sock (-3) with
        | none => simp [hn] at h
        | some R' =>
          simp only [hn, Option.map_some', Option.some.injEq] at h
          exact ⟨hs, res, calls, rfl, hres, R', rfl, h.symm⟩

theorem fails_cases (c : Candidate) (h : c.fails = true) :
    c.sock = -1 ∨ (c.sock ≠ -1 ∧ ∃ o, final_connect c.conn = some o ∧ o.res ≠ 0) := by
  by_cases hs : c.sock = -1
  · exact Or.inl hs
  · right
    refine ⟨hs, ?_⟩
    unfold Candidate.fails at h
    cases hf : final_connect c.conn with
    | none => simp [hs, hf] at h
    | some o => exact ⟨o, rfl, by simpa [hs, hf] using h⟩

theorem connects_cases (c : Candidate) (h : c.connects = true) :
    c.sock ≠ -1 ∧ ∃ o, final_connect c.conn = some o ∧ o.res = 0 := by
  unfold Candidate.connects at h
  cases hf : final_connect c.conn with
  | none => simp [hf] at h
  | some o =>
    simp only [hf, Bool.and_eq_true, bne_iff_ne, ne_eq, beq_iff_eq] at h
    exact ⟨h.1, o, rfl, h.2⟩

theorem filter_socket_of_connect_calls (l : List Event)
    (h : ∀ e ∈ l, e.is_connect_call = true) :
    l.filter Event.is_socket_call = [] := by
  rw [List.filter_eq_nil_iff]
  intro e he
  have := h e he
  cases e <;> simp_all [Event.is_connect_call, Event.is_socket_call]

/-- The loop on a list whose first connecting candidate is `c`: it stops at `c`
whatever follows. -/
theorem connect_loop_first_success (fam : Family) (port : Nat)
    (before : List Candidate) (c : Candidate) (s e : Int)
    (hb : ∀ b ∈ before, b.fails = true) (hc : c.connects = true) :
    ∃ calls, (∀ after, connect_loop fam port (before ++ c :: after) s e
        = some (c.sock, 0, calls ++
            [Event.connect c.sock (connect_port port c) (sizeof_sockaddr fam) 0])) ∧
      (calls.filter Event.is_socket_call).length = before.length + 1 := by
  induction before generalizing s e with
  | nil =>
    obtain ⟨hs, o, ho, hres⟩ := connects_cases c hc
    obtain ⟨calls0, hr, hall⟩ :=
      connect_retry_final c.sock (connect_port port c) (sizeof_sockaddr fam) c.conn o ho
    rw [hres] at hr
    refine ⟨Event.socket fam c.sock :: calls0, ?_, ?_⟩
    · intro after
      rw [List.nil_append, connect_loop_connected fam port c after s e _ hs hr]
      rfl
    · simp [List.filter_cons, Event.is_socket_call,
        filter_socket_of_connect_calls calls0 hall]
  | cons b before ih =>
    have hb2 : ∀ x ∈ before, x.fails = true :=
      fun x hx => hb x (List.mem_cons_of_mem _ hx)
    rcases fails_cases b (hb b (List.mem_cons_self _ _)) with hs | ⟨hs, o, ho, hres⟩
    · obtain ⟨calls, hrun, hcount⟩ := ih (-1) (-2) hb2
      refine ⟨Event.socket fam (-1) :: calls, ?_, ?_⟩
      · intro after
        rw [List.cons_append, connect_loop_nosock fam port b _ s e hs, hrun after]
        rfl
      · simp [List.filter_cons, Event.is_socket_call, hcount]
    · obtain ⟨calls0, hr, hall⟩ :=
        connect_retry_final b.sock (connect_port port b) (sizeof_sockaddr fam) b.conn o ho
      obtain ⟨calls, hrun, hcount⟩ := ih b.sock (-3) hb2
      refine ⟨Event.socket fam b.sock :: ((calls0 ++
        [Event.connect b.sock (connect_port port b) (sizeof_sockaddr fam) o.res])
          ++ Event.close b.sock :: calls), ?_, ?_⟩
      · intro after
        rw [List.cons_append,
          connect_loop_refused fam port b _ s e o.res _ hs hr hres, hrun after]
        simp
      · simp [List.filter_cons, List.filter_append, Event.is_socket_call, hcount,
          filter_socket_of_connect_calls calls0 hall]

/-- The connect body once resolution has succeeded, in terms of the loop. -/
theorem connect_to_host_of_loop (fam : Family) (address : Ptr) (service : Option Ptr)
    (port : Nat) (info : List Candidate) (sock err : Int) (calls : List Event)
    (hne : info ≠ [])
    (h : connect_loop fam port info 0 0 = some (sock, err, calls)) :
    connect_to_host fam address service port ⟨0, info⟩ =
      some ⟨if err != 0 then err else sock,
        lock_args address service ++
          [Event.Sdeactivate_thread, Event.getaddrinfo address service fam] ++ calls ++
          Event.Sactivate_thread :: unlock_args address service ++ [Event.freeaddrinfo]⟩ := by
  cases info with
  | nil => exact absurd rfl hne
  | cons c cs => simp [connect_to_host, h]

/-- The common connect body returns the first connecting candidate's socket. -/
theorem connect_to_host_first_success (fam : Family) (address : Ptr)
    (service : Option Ptr) (port : Nat) (before : List Candidate) (c : Candidate)
    (after : List Candidate)
    (hb : ∀ b ∈ before, b.fails = true) (hc : c.connects = true) :
    ∃ r, connect_to_host fam address service port ⟨0, before ++ c :: after⟩ = some r ∧
      r.ret = c.sock ∧
      connect_to_host fam address service port ⟨0, before ++ [c]⟩ = some r ∧
      (r.trace.filter Event.is_socket_call).length = before.length + 1 ∧
      ∃ t p l, r.trace = t ++ Event.connect c.sock p l 0 :: Event.Sactivate_thread ::
        (unlock_args address service ++ [Event.freeaddrinfo]) := by
  obtain ⟨calls, hrun, hcount⟩ := connect_loop_first_success fam port before c 0 0 hb hc
  refine ⟨_, connect_to_host_of_loop fam address service port _ _ _ _ (by simp)
    (hrun after), ?_, ?_, ?_, ?_⟩
  · simp
  · exact connect_to_host_of_loop fam address service port _ _ _ _ (by simp) (hrun [])
  · cases service <;>
      simp [List.filter_cons, List.filter_append, Event.is_socket_call, hcount,
        lock_args, unlock_args]
  · exact ⟨lock_args address service ++
      [Event.Sdeactivate_thread, Event.getaddrinfo address service fam] ++ calls,
      connect_port port c, sizeof_sockaddr fam, by simp⟩

/-- The loop on a list in which every candidate fails: it runs to the end and
leaves in `err` the error of the last candidate. -/
theorem connect_loop_all_fail (fam : Family) (port : Nat) (init : List Candidate)
    (last : Candidate) (s e : Int) (h : ∀ c ∈ init ++ [last], c.fails = true) :
    ∃ R, connect_loop fam port (init ++ [last]) s e = some R ∧
      R.2.1 = (if last.sock = -1 then -2 else -3) := by
  induction init generalizing s e with
  | nil =>
    rcases fails_cases last (h last (by simp)) with hs | ⟨hs, o, ho, hres⟩
    · rw [List.nil_append, connect_loop_nosock fam port last [] s e hs]
      exact ⟨_, rfl, by simp [hs]⟩
    · obtain ⟨calls0, hr, _⟩ :=
        connect_retry_final last.sock (connect_port port last) (sizeof_sockaddr fam)
          last.conn o ho
      rw [List.nil_append, connect_loop_refused fam port last [] s e o.res _ hs hr hres]
      exact ⟨_, rfl, by simp [hs]⟩
  | cons b init ih =>
    have h2 : ∀ c ∈ init ++ [last], c.fails = true :=
      fun x hx => h x (by simpa using Or.inr (by simpa using hx))
    rcases fails_cases b (h b (by simp)) with hs | ⟨hs, o, ho, hres⟩
    · obtain ⟨R, hrun, herr⟩ := ih (-1) (-2) h2
      rw [List.cons_append, connect_loop_nosock fam port b _ s e hs, hrun]
      exact ⟨_, rfl, herr⟩
    · obtain ⟨calls0, hr, _⟩ :=
        connect_retry_final b.sock (connect_port port b) (sizeof_sockaddr fam) b.conn o ho
      obtain ⟨R, hrun, herr⟩ := ih b.sock (-3) h2
      rw [List.cons_append, connect_loop_refused fam port b _ s e o.res _ hs hr hres, hrun]
      exact ⟨_, rfl, herr⟩

/-- The common connect body when every candidate fails. -/
theorem connect_to_host_all_fail (fam : Family) (address : Ptr) (service : Option Ptr)
    (port : Nat) (init : List Candidate) (last : Candidate)
    (h : ∀ c ∈ init ++ [last], c.fails = true) :
    ∃ r, connect_to_host fam address service port ⟨0, init ++ [last]⟩ = some r ∧
      r.ret = (if last.sock = -1 then -2 else -3) ∧ r.ret ≠ -1 := by
  obtain ⟨⟨sock, err, calls⟩, hrun, herr⟩ := connect_loop_all_fail fam port init last 0 0 h
  simp only at herr
  subst herr
  refine ⟨_, connect_to_host_of_loop fam address service port _ _ _ _ (by simp) hrun, ?_, ?_⟩
  · by_cases hs : last.sock = -1 <;> simp [hs]
  · by_cases hs : last.sock = -1 <;> simp [hs]

theorem loop_call_of_connect_call (e : Event) (h : e.is_connect_call = true) :
    e.is_loop_call = true := by
  cases e <;> simp_all [Event.is_connect_call, Event.is_loop_call]

/-- The candidate loop makes no other calls than `socket`, `connect`, `close`. -/
theorem connect_loop_calls (fam : Family) (port : Nat) (cs : List Candidate)
    (s e : Int) (R : Int × Int × List Event)
    (h : connect_loop fam port cs s e = some R) :
    ∀ ev ∈ R.2.2, ev.is_loop_call = true := by
  induction cs generalizing s e R with
  | nil =>
    simp only [connect_loop, Option.some.injEq] at h
    subst h
    simp
  | cons c next ih =>
    rcases connect_loop_cons_cases fam port c next s e R h with
      ⟨_, R', hR', rfl⟩ | ⟨_, res, calls, hr, _, R', hR', rfl⟩ | ⟨_, calls, hr, rfl⟩
    · intro ev hev
      rcases List.mem_cons.1 hev with rfl | hev
      · rfl
      · exact ih _ _ _ hR' ev hev
    · intro ev hev
      have hc := connect_retry_calls _ _ _ _ _ _ hr
      simp only [List.mem_cons, List.mem_append] at hev
      rcases hev with rfl | hev | rfl | hev
      · rfl
      · exact loop_call_of_connect_call ev (hc ev hev)
      · rfl
      · exact ih _ _ _ hR' ev hev
    · intro ev hev
      have hc := connect_retry_calls _ _ _ _ _ _ hr
      rcases List.mem_cons.1 hev with rfl | hev
      · rfl
      · exact loop_call_of_connect_call ev (hc ev hev)

/-! ## Lemmas about the accept retry loop -/

/-- The accept loop on a script whose first answer that is not an
interruption is `o`. -/
theorem accept_retry_final (sock : Int) (len : Nat) (addr : List Nat)
    (pre : List AcceptOutcome) (o : AcceptOutcome) (rest : List AcceptOutcome)
    (hpre : ∀ x ∈ pre, x.interrupted = true) (ho : o.interrupted = false) :
    ∃ calls, accept_retry sock len addr (pre ++ o :: rest)
        = some (o.ret, o.addr_len, o.sin_addr, calls) ∧
      ∀ e ∈ calls, e.is_retried_call = true := by
  induction pre generalizing len addr with
  | nil =>
    have ho2 : (o.ret == -1 && o.errno == EINTR) = false := by
      simpa [AcceptOutcome.interrupted] using ho
    exact ⟨[Event.accept sock len o.ret], by simp [accept_retry, ho2],
      by simp [Event.is_retried_call]⟩
  | cons a pre ih =>
    have ha : (a.ret == -1 && a.errno == EINTR) = true := by
      simpa [AcceptOutcome.interrupted] using hpre a (List.mem_cons_self _ _)
    obtain ⟨calls, hc, hall⟩ :=
      ih a.addr_len a.sin_addr (fun x hx => hpre x (List.mem_cons_of_mem _ hx))
    refine ⟨Event.accept sock len a.ret :: calls, ?_, ?_⟩
    · rw [List.cons_append]
      simp only [accept_retry, ha, if_true, hc, Option.map_some']
    · intro e he
      rcases List.mem_cons.1 he with rfl | he
      · rfl
      · exact hall e he

theorem accept_retry_calls (sock : Int) (len : Nat) (addr : List Nat)
    (os : List AcceptOutcome) (R : Int × Nat × List Nat × List Event)
    (h : accept_retry sock len addr os = some R) :
    ∀ e ∈ R.2.2.2, e.is_retried_call = true := by
  induction os generalizing len addr R with
  | nil => simp [accept_retry] at h
  | cons a os ih =>
    by_cases ha : (a.ret == -1 && a.errno == EINTR) = true
    · simp only [accept_retry, ha, if_true] at h
      cases hr : accept_retry sock a.addr_len a.sin_addr os with
      | none => simp [hr] at h
      | some R' =>
        simp only [hr, Option.map_some', Option.some.injEq] at h
        subst h
        intro e he
        rcases List.mem_cons.1 he with rfl | he
        · rfl
        · exact ih _ _ _ hr e he
    · simp only [accept_retry, ha, Bool.false_eq_true, if_false, Option.some.injEq] at h
      subst h
      intro e he
      simp at he
      subst he
      rfl

theorem accept_retry_all_interrupted (sock : Int) (len : Nat) (addr : List Nat)
    (os : List AcceptOutcome) (h : ∀ x ∈ os, x.interrupted = true) :
    accept_retry sock len addr os = none := by
  induction os generalizing len addr with
  | nil => rfl
  | cons a os ih =>
    have ha : (a.ret == -1 && a.errno == EINTR) = true := by
      simpa [AcceptOutcome.interrupted] using h a (List.mem_cons_self _ _)
    simp [accept_retry, ha, ih _ _ (fun x hx => h x (List.mem_cons_of_mem _ hx))]

theorem filter_of_retried_calls (l : List Event) (q : Event → Bool)
    (h : ∀ e ∈ l, e.is_retried_call = true)
    (hq : ∀ e, e.is_retried_call = true → q e = false) :
    l.filter q = [] := by
  rw [List.filter_eq_nil_iff]
  intro e he
  simp [hq e (h e he)]

/-! ## The shape of a connect call -/

/-- The two ways `connect_to_host` returns: the early return after a failed
resolution, and the exit after the candidate loop. -/
theorem connect_to_host_cases (fam : Family) (address : Ptr) (service : Option Ptr)
    (port : Nat) (os : Resolution) (r : Result)
    (h : connect_to_host fam address service port os = some r) :
    ((os.gai ≠ 0 ∨ os.info = []) ∧
      r = ⟨-1, lock_args address service ++
        [Event.Sdeactivate_thread, Event.getaddrinfo address service fam] ++
        Event.Sactivate_thread :: unlock_args address service⟩) ∨
    (os.gai = 0 ∧ os.info ≠ [] ∧ ∃ sock err calls,
      connect_loop fam port os.info 0 0 = some (sock, err, calls) ∧
      r = ⟨if err != 0 then err else sock,
        lock_args address service ++
          [Event.Sdeactivate_thread, Event.getaddrinfo address service fam] ++ calls ++
          Event.Sactivate_thread :: unlock_args address service ++ [Event.freeaddrinfo]⟩) := by
  by_cases hg : os.gai ≠ 0 ∨ os.info = []
  · left
    refine ⟨hg, ?_⟩
    have hc : (os.gai != 0 || os.info.isEmpty) = true := by
      rcases hg with hg | hg
      · simp [hg]
      · simp [hg]
    simp only [connect_to_host, hc, if_true, Option.some.injEq] at h
    rw [← h]
  · right
    have hg1 : os.gai = 0 := by
      by_contra hne
      exact hg (Or.inl hne)
    have hg2 : os.info ≠ [] := fun hnil => hg (Or.inr hnil)
    refine ⟨hg1, hg2, ?_⟩
    have hc : (os.gai != 0 || os.info.isEmpty) = false := by
      simp [hg1, hg2]
    simp only [connect_to_host, hc, Bool.false_eq_true, if_false] at h
    cases hl : connect_loop fam port os.info 0 0 with
    | none => simp [hl] at h
    | some R =>
      obtain ⟨sock, err, calls⟩ := R
      simp only [hl, Option.some.injEq] at h
      exact ⟨sock, err, calls, rfl, h.symm⟩

/-- A failed or empty resolution makes `connect_to_host` return -1 at once. -/
theorem connect_to_host_unresolved (fam : Family) (address : Ptr)
    (service : Option Ptr) (port : Nat) (os : Resolution)
    (hg : os.gai ≠ 0 ∨ os.info = []) :
    connect_to_host fam address service port os =
      some ⟨-1, lock_args address service ++
        [Event.Sdeactivate_thread, Event.getaddrinfo address service fam] ++
        Event.Sactivate_thread :: unlock_args address service⟩ := by
  have hc : (os.gai != 0 || os.info.isEmpty) = true := by
    rcases hg with hg | hg
    · simp [hg]
    · simp [hg]
  simp only [connect_to_host, hc, if_true]

theorem count_getaddrinfo_of_loop_calls (l : List Event) (a : Ptr) (sv : Option Ptr)
    (fam : Family) (h : ∀ e ∈ l, e.is_loop_call = true) :
    l.count (Event.getaddrinfo a sv fam) = 0 := by
  rw [List.count_eq_zero]
  intro hmem
  have := h _ hmem
  simp [Event.is_loop_call] at this

/-- Every returning connect call has called `getaddrinfo` exactly once. -/
theorem connect_to_host_resolves_once (fam : Family) (address : Ptr)
    (service : Option Ptr) (port : Nat) (os : Resolution) (r : Result)
    (h : connect_to_host fam address service port os = some r) :
    r.trace.count (Event.getaddrinfo address service fam) = 1 := by
  rcases connect_to_host_cases fam address service port os r h with
    ⟨_, rfl⟩ | ⟨_, _, sock, err, calls, hl, rfl⟩
  · cases service <;> simp [lock_args, unlock_args, List.count_cons]
  · have hz := count_getaddrinfo_of_loop_calls calls address service fam
      (connect_loop_calls fam port os.info 0 0 _ hl)
    cases service <;> simp [lock_args, unlock_args, List.count_cons, hz]

theorem connect_null_service_zero_port (fam : Family) (address : Ptr) (os : Resolution) :
    (∀ r, connect_to_host fam address none 0 os = some r →
      r.trace.count (Event.getaddrinfo address none fam) = 1) ∧
    ((os.gai ≠ 0 ∨ os.info = []) →
      ∃ tr, connect_to_host fam address none 0 os = some ⟨-1, tr⟩ ∧
        Event.getaddrinfo address none fam ∈ tr) := by
  refine ⟨fun r h => connect_to_host_resolves_once fam address none 0 os r h, ?_⟩
  intro hg
  exact ⟨_, connect_to_host_unresolved fam address none 0 os hg, by simp⟩

/-! ## The listen functions -/

theorem listen_on_socket_paths (fam : Family) (local_ : Int) (port : Nat)
    (backlog : Int) (os : ListenOS) (haddr : local_ = 0 ∨ os.inet_pton ≠ -1) :
    (os.socket = -1 →
      (listen_on_socket fam local_ port backlog os).ret = -2 ∧
      ∀ e ∈ (listen_on_socket fam local_ port backlog os).trace,
        e.is_bind_call = false ∧ e.is_listen_call = false) ∧
    (os.socket ≠ -1 → os.bind = -1 →
      (listen_on_socket fam local_ port backlog os).ret = -3 ∧
      (listen_on_socket fam local_ port backlog os).trace.filter Event.is_close_call
        = [Event.close os.socket] ∧
      ∀ e ∈ (listen_on_socket fam local_ port backlog os).trace,
        e.is_listen_call = false) ∧
    (os.socket ≠ -1 → os.bind ≠ -1 → os.listen = -1 →
      (listen_on_socket fam local_ port backlog os).ret = -4 ∧
      (listen_on_socket fam local_ port backlog os).trace.filter Event.is_close_call
        = [Event.close os.socket]) ∧
    (os.socket ≠ -1 → os.bind ≠ -1 → os.listen ≠ -1 →
      (listen_on_socket fam local_ port backlog os).ret = os.socket ∧
      (listen_on_socket fam local_ port backlog os).trace.filter Event.is_close_call
        = []) := by
  by_cases hl : local_ = 0
  · refine ⟨?_, ?_, ?_, ?_⟩
    · intro h1
      simp [listen_on_socket, listen_from_socket, hl, h1, Event.is_bind_call,
        Event.is_listen_call]
    · intro h1 h2
      simp [listen_on_socket, listen_from_socket, hl, h1, h2, Event.is_close_call,
        Event.is_listen_call, List.filter_cons]
    · intro h1 h2 h3
      simp [listen_on_socket, listen_from_socket, hl, h1, h2, h3, Event.is_close_call,
        List.filter_cons]
    · intro h1 h2 h3
      simp [listen_on_socket, listen_from_socket, hl, h1, h2, h3, Event.is_close_call,
        List.filter_cons]
  · have hp : os.inet_pton ≠ -1 := by
      rcases haddr with h | h
      · exact absurd h hl
      · exact h
    refine ⟨?_, ?_, ?_, ?_⟩
    · intro h1
      simp [listen_on_socket, listen_from_socket, hl, hp, h1, Event.is_bind_call,
        Event.is_listen_call]
    · intro h1 h2
      simp [listen_on_socket, listen_from_socket, hl, hp, h1, h2, Event.is_close_call,
        Event.is_listen_call, List.filter_cons]
    · intro h1 h2 h3
      simp [listen_on_socket, listen_from_socket, hl, hp, h1, h2, h3,
        Event.is_close_call, List.filter_cons]
    · intro h1 h2 h3
      simp [listen_on_socket, listen_from_socket, hl, hp, h1, h2, h3,
        Event.is_close_call, List.filter_cons]

/-! ## The accept functions -/

/-- The result of `accept_connection` on a script whose first answer that is
not an interruption is `o`. -/
theorem accept_connection_final (fam : Family) (sock : Int) (connection : Ptr)
    (buf : List Nat) (pre : List AcceptOutcome) (o : AcceptOutcome)
    (rest : List AcceptOutcome)
    (hpre : ∀ x ∈ pre, x.interrupted = true) (ho : o.interrupted = false) :
    ∃ calls, (∀ e ∈ calls, e.is_retried_call = true) ∧
      accept_connection fam sock connection buf (pre ++ o :: rest) =
        some (if o.addr_len > sizeof_sockaddr fam then
            ⟨-1, buf, [Event.Slock_object connection, Event.Sdeactivate_thread] ++ calls
              ++ [Event.Sactivate_thread, Event.Sunlock_object connection]
              ++ [Event.close o.ret]⟩
          else if o.ret == -1 then
            ⟨-1, buf, [Event.Slock_object connection, Event.Sdeactivate_thread] ++ calls
              ++ [Event.Sactivate_thread, Event.Sunlock_object connection]⟩
          else
            ⟨o.ret, memcpy buf o.sin_addr (sizeof_in_addr fam),
              [Event.Slock_object connection, Event.Sdeactivate_thread] ++ calls
              ++ [Event.Sactivate_thread, Event.Sunlock_object connection]
              ++ [Event.memcpy connection (sizeof_in_addr fam)]⟩) := by
  obtain ⟨calls, hc, hall⟩ :=
    accept_retry_final sock (sizeof_sockaddr fam) (zero_addr fam) pre o rest hpre ho
  refine ⟨calls, hall, ?_⟩
  simp only [accept_connection, hc]
  split_ifs <;> rfl

theorem accept_connection_oversized (fam : Family) (sock : Int) (connection : Ptr)
    (buf : List Nat) (pre : List AcceptOutcome) (o : AcceptOutcome)
    (rest : List AcceptOutcome)
    (hpre : ∀ x ∈ pre, x.interrupted = true) (ho : o.interrupted = false)
    (hlen : o.addr_len > sizeof_sockaddr fam) :
    ∃ r, accept_connection fam sock connection buf (pre ++ o :: rest) = some r ∧
      r.ret = -1 ∧ r.connection = buf ∧
      r.trace.filter Event.is_close_call = [Event.close o.ret] ∧
      r.trace.filter Event.is_memcpy_call = [] ∧
      (o.ret ≠ -1 → r.ret ≠ o.ret) := by
  obtain ⟨calls, hall, hrun⟩ :=
    accept_connection_final fam sock connection buf pre o rest hpre ho
  rw [if_pos hlen] at hrun
  have h1 := filter_of_retried_calls calls Event.is_close_call hall
    (by intro e he; cases e <;> simp_all [Event.is_retried_call, Event.is_close_call])
  have h2 := filter_of_retried_calls calls Event.is_memcpy_call hall
    (by intro e he; cases e <;> simp_all [Event.is_retried_call, Event.is_memcpy_call])
  refine ⟨_, hrun, rfl, rfl, ?_, ?_, fun hne heq => hne heq.symm⟩
  · simp [List.filter_cons, List.filter_append, Event.is_close_call, h1]
  · simp [List.filter_cons, List.filter_append, Event.is_memcpy_call, h2]

theorem accept_connection_failure_value (fam : Family) (sock : Int) (connection : Ptr)
    (buf : List Nat) (pre : List AcceptOutcome) (o : AcceptOutcome)
    (rest : List AcceptOutcome)
    (hpre : ∀ x ∈ pre, x.interrupted = true) (ho : o.interrupted = false)
    (hfail : o.ret = -1 ∨ o.addr_len > sizeof_sockaddr fam) :
    ∃ r, accept_connection fam sock connection buf (pre ++ o :: rest) = some r ∧
      r.ret = -1 := by
  obtain ⟨calls, _, hrun⟩ :=
    accept_connection_final fam sock connection buf pre o rest hpre ho
  refine ⟨_, hrun, ?_⟩
  by_cases hlen : o.addr_len > sizeof_sockaddr fam
  · rw [if_pos hlen]
  · rcases hfail with hf | hf
    · rw [if_neg hlen]
      simp [hf]
    · exact absurd hf hlen

/-! ## Interruptions -/

theorem accept_retry_skip_interrupted (sock : Int) (len len' : Nat)
    (addr addr' : List Nat) (pre rest : List AcceptOutcome)
    (hpre : ∀ x ∈ pre, x.interrupted = true) :
    (accept_retry sock len addr (pre ++ rest)).map (fun R => (R.1, R.2.1, R.2.2.1)) =
      (accept_retry sock len' addr' rest).map (fun R => (R.1, R.2.1, R.2.2.1)) := by
  induction pre generalizing len addr with
  | nil =>
    cases rest with
    | nil => rfl
    | cons a os =>
      by_cases ha : (a.ret == -1 && a.errno == EINTR) = true
      · simp only [List.nil_append, accept_retry, ha, if_true, Option.map_map]
        rfl
      · simp only [List.nil_append, accept_retry, ha, Bool.false_eq_true, if_false,
          Option.map_some']
  | cons a pre ih =>
    have ha : (a.ret == -1 && a.errno == EINTR) = true := by
      simpa [AcceptOutcome.interrupted] using hpre a (List.mem_cons_self _ _)
    rw [List.cons_append]
    simp only [accept_retry, ha, if_true, Option.map_map]
    exact ih a.addr_len a.sin_addr (fun x hx => hpre x (List.mem_cons_of_mem _ hx))

/-- The observable result of `accept_connection` is a function of what the
accept loop leaves in `connect_sock`, `addr_len` and `addr`. -/
theorem accept_connection_observable (fam : Family) (sock : Int) (connection : Ptr)
    (buf : List Nat) (os : List AcceptOutcome) :
    (accept_connection fam sock connection buf os).map AcceptResult.observable =
      ((accept_retry sock (sizeof_sockaddr fam) (zero_addr fam) os).map
          (fun R => (R.1, R.2.1, R.2.2.1))).map
        (fun t =>
          if t.2.1 > sizeof_sockaddr fam then
            (-1, buf, [Event.Slock_object connection, Event.Sdeactivate_thread,
              Event.Sactivate_thread, Event.Sunlock_object connection, Event.close t.1])
          else if t.1 == -1 then
            (-1, buf, [Event.Slock_object connection, Event.Sdeactivate_thread,
              Event.Sactivate_thread, Event.Sunlock_object connection])
          else
            (t.1, memcpy buf t.2.2 (sizeof_in_addr fam),
              [Event.Slock_object connection, Event.Sdeactivate_thread,
                Event.Sactivate_thread, Event.Sunlock_object connection,
                Event.memcpy connection (sizeof_in_addr fam)])) := by
  cases h : accept_retry sock (sizeof_sockaddr fam) (zero_addr fam) os with
  | none => simp [accept_connection, h]
  | some R =>
    obtain ⟨cs, l, a, calls⟩ := R
    have hf := filter_of_retried_calls calls (fun e => !e.is_retried_call)
      (accept_retry_calls _ _ _ _ _ h) (by intro e he; simp [he])
    have e1 : Event.is_retried_call (Event.Slock_object connection) = false := rfl
    have e2 : Event.is_retried_call Event.Sdeactivate_thread = false := rfl
    have e3 : Event.is_retried_call Event.Sactivate_thread = false := rfl
    have e4 : Event.is_retried_call (Event.Sunlock_object connection) = false := rfl
    have e5 : Event.is_retried_call (Event.close cs) = false := rfl
    have e6 : Event.is_retried_call (Event.memcpy connection (sizeof_in_addr fam))
      = false := rfl
    simp only [accept_connection, h, Option.map_some']
    split_ifs <;>
      simp [AcceptResult.observable, List.filter_cons, List.filter_append, hf,
        e1, e2, e3, e4, e5, e6]

theorem accept_connection_transparent (fam : Family) (sock : Int) (connection : Ptr)
    (buf : List Nat) (pre rest : List AcceptOutcome)
    (hpre : ∀ x ∈ pre, x.interrupted = true) :
    (accept_connection fam sock connection buf (pre ++ rest)).map
        AcceptResult.observable =
      (accept_connection fam sock connection buf rest).map AcceptResult.observable := by
  rw [accept_connection_observable, accept_connection_observable,
    accept_retry_skip_interrupted sock _ (sizeof_sockaddr fam) _ (zero_addr fam) pre rest
      hpre]

theorem accept_connection_all_interrupted (fam : Family) (sock : Int)
    (connection : Ptr) (buf : List Nat) (os : List AcceptOutcome)
    (h : ∀ x ∈ os, x.interrupted = true) :
    accept_connection fam sock connection buf os = none := by
  simp [accept_connection, accept_retry_all_interrupted sock _ _ os h]

theorem loop_observable_map (x y : Option (Int × Int × List Event))
    (f : List Event → List Event)
    (hxy : loop_observable x = loop_observable y)
    (hf : ∀ l l', l.filter (fun e => !e.is_retried_call)
        = l'.filter (fun e => !e.is_retried_call) →
      (f l).filter (fun e => !e.is_retried_call)
        = (f l').filter (fun e => !e.is_retried_call)) :
    loop_observable (x.map (fun r => (r.1, r.2.1, f r.2.2))) =
      loop_observable (y.map (fun r => (r.1, r.2.1, f r.2.2))) := by
  cases x with
  | none =>
    cases y with
    | none => rfl
    | some b => simp [loop_observable] at hxy
  | some a =>
    cases y with
    | none => simp [loop_observable] at hxy
    | some b =>
      simp only [loop_observable, Option.map_some', Option.some.injEq, Prod.mk.injEq] at hxy ⊢
      exact ⟨hxy.1, hxy.2.1, hf _ _ hxy.2.2⟩

/-- Changing what follows a candidate, without changing what the loop
observably does there, does not change what the loop observably does. -/
theorem connect_loop_observable_tail (fam : Family) (port : Nat) (b : Candidate)
    (next next' : List Candidate) (s e : Int)
    (H : ∀ s' e', loop_observable (connect_loop fam port next s' e')
      = loop_observable (connect_loop fam port next' s' e')) :
    loop_observable (connect_loop fam port (b :: next) s e) =
      loop_observable (connect_loop fam port (b :: next') s e) := by
  by_cases hs : b.sock = -1
  · rw [connect_loop_nosock fam port b next s e hs,
      connect_loop_nosock fam port b next' s e hs]
    exact loop_observable_map _ _ (fun l => Event.socket fam (-1) :: l) (H _ _)
      (by intro l l' hl; simp [List.filter_cons, hl])
  · cases hr : connect_retry b.sock (connect_port port b) (sizeof_sockaddr fam) b.conn with
    | none =>
      simp only [connect_port, bne_iff_ne, ne_eq, ite_not] at hr
      simp [connect_loop, hs, hr]
    | some rc =>
      obtain ⟨res, calls⟩ := rc
      by_cases hres : res = 0
      · subst hres
        rw [connect_loop_connected fam port b next s e calls hs hr,
          connect_loop_connected fam port b next' s e calls hs hr]
      · rw [connect_loop_refused fam port b next s e res calls hs hr hres,
          connect_loop_refused fam port b next' s e res calls hs hr hres]
        exact loop_observable_map _ _
          (fun l => Event.socket fam b.sock :: (calls ++ Event.close b.sock :: l)) (H _ _)
          (by intro l l' hl; simp [List.filter_cons, List.filter_append, hl])

/-- Interruptions in front of a candidate's connect script do not change what
the loop observably does. -/
theorem connect_loop_observable_head (fam : Family) (port : Nat) (sin_port : Nat)
    (sock : Int) (pre conn : List ConnectOutcome) (next : List Candidate) (s e : Int)
    (hpre : ∀ x ∈ pre, x.interrupted = true) :
    loop_observable (connect_loop fam port (⟨sin_port, sock, pre ++ conn⟩ :: next) s e) =
      loop_observable (connect_loop fam port (⟨sin_port, sock, conn⟩ :: next) s e) := by
  by_cases hs : sock = -1
  · rw [connect_loop_nosock fam port ⟨sin_port, sock, pre ++ conn⟩ next s e hs,
      connect_loop_nosock fam port ⟨sin_port, sock, conn⟩ next s e hs]
  · have happ := connect_retry_interrupted_append sock
      (connect_port port ⟨sin_port, sock, conn⟩) (sizeof_sockaddr fam) pre conn hpre
    have hfil : (pre.map (fun o => Event.connect sock
        (connect_port port ⟨sin_port, sock, conn⟩) (sizeof_sockaddr fam) o.res)).filter
        (fun e => !e.is_retried_call) = [] := by
      rw [List.filter_eq_nil_iff]
      intro ev hev
      obtain ⟨o, _, rfl⟩ := List.mem_map.1 hev
      simp [Event.is_retried_call]
    cases hr : connect_retry sock (connect_port port ⟨sin_port, sock, conn⟩)
        (sizeof_sockaddr fam) conn with
    | none =>
      rw [hr] at happ
      have h1 : connect_loop fam port (⟨sin_port, sock, pre ++ conn⟩ :: next) s e = none := by
        simp only [connect_port, bne_iff_ne, ne_eq, ite_not, Option.map_none'] at happ
        simp [connect_loop, hs, happ]
      have h2 : connect_loop fam port (⟨sin_port, sock, conn⟩ :: next) s e = none := by
        simp only [connect_port, bne_iff_ne, ne_eq, ite_not] at hr
        simp [connect_loop, hs, hr]
      rw [h1, h2]
    | some rc =>
      obtain ⟨res, calls⟩ := rc
      rw [hr] at happ
      simp only [Option.map_some'] at happ
      by_cases hres : res = 0
      · subst hres
        rw [connect_loop_connected fam port ⟨sin_port, sock, pre ++ conn⟩ next s e _ hs happ,
          connect_loop_connected fam port ⟨sin_port, sock, conn⟩ next s e calls hs hr]
        simp [loop_observable, List.filter_cons, List.filter_append, hfil]
      · rw [connect_loop_refused fam port ⟨sin_port, sock, pre ++ conn⟩ next s e res _ hs
            happ hres,
          connect_loop_refused fam port ⟨sin_port, sock, conn⟩ next s e res calls hs hr hres]
        cases connect_loop fam port next sock (-3) with
        | none => rfl
        | some R =>
          simp [loop_observable, List.filter_cons, List.filter_append, hfil]

theorem connect_loop_transparent (fam : Family) (port : Nat) (before : List Candidate)
    (sin_port : Nat) (sock : Int) (pre conn : List ConnectOutcome)
    (after : List Candidate) (s e : Int) (hpre : ∀ x ∈ pre, x.interrupted = true) :
    loop_observable
        (connect_loop fam port (before ++ ⟨sin_port, sock, pre ++ conn⟩ :: after) s e) =
      loop_observable
        (connect_loop fam port (before ++ ⟨sin_port, sock, conn⟩ :: after) s e) := by
  induction before generalizing s e with
  | nil => exact connect_loop_observable_head fam port sin_port sock pre conn after s e hpre
  | cons b before ih =>
    exact connect_loop_observable_tail fam port b _ _ s e (fun s' e' => ih s' e')

theorem filter_lock_args (address : Ptr) (service : Option Ptr) :
    (lock_args address service).filter (fun e => !e.is_retried_call)
      = lock_args address service := by
  cases service <;> simp [lock_args, List.filter_cons, Event.is_retried_call]

theorem filter_unlock_args (address : Ptr) (service : Option Ptr) :
    (unlock_args address service).filter (fun e => !e.is_retried_call)
      = unlock_args address service := by
  cases service <;> simp [unlock_args, List.filter_cons, Event.is_retried_call]

/-- The observable result of `connect_to_host` is a function of the observable
state in which the candidate loop is left. -/
theorem connect_to_host_observable (fam : Family) (address : Ptr)
    (service : Option Ptr) (port : Nat) (os : Resolution) :
    (connect_to_host fam address service port os).map Result.observable =
      if os.gai != 0 || os.info.isEmpty then
        some (-1, lock_args address service ++
          [Event.Sdeactivate_thread, Event.getaddrinfo address service fam] ++
          Event.Sactivate_thread :: unlock_args address service)
      else
        (loop_observable (connect_loop fam port os.info 0 0)).map
          (fun R => (if R.2.1 != 0 then R.2.1 else R.1,
            lock_args address service ++
              [Event.Sdeactivate_thread, Event.getaddrinfo address service fam] ++ R.2.2 ++
              Event.Sactivate_thread :: unlock_args address service
              ++ [Event.freeaddrinfo])) := by
  have e1 : Event.is_retried_call Event.Sdeactivate_thread = false := rfl
  have e2 : Event.is_retried_call Event.Sactivate_thread = false := rfl
  have e3 : Event.is_retried_call (Event.getaddrinfo address service fam) = false := rfl
  have e4 : Event.is_retried_call Event.freeaddrinfo = false := rfl
  by_cases hc : (os.gai != 0 || os.info.isEmpty) = true
  · simp only [connect_to_host, hc, if_true, Option.map_some', Result.observable]
    simp [List.filter_cons, List.filter_append, filter_lock_args, filter_unlock_args,
      e1, e2, e3]
  · simp only [connect_to_host, hc, Bool.false_eq_true, if_false]
    cases hl : connect_loop fam port os.info 0 0 with
    | none => simp [loop_observable]
    | some R =>
      obtain ⟨sock, err, calls⟩ := R
      simp only [loop_observable, Option.map_some', Result.observable]
      simp [List.filter_cons, List.filter_append, filter_lock_args, filter_unlock_args,
        e1, e2, e3, e4]

theorem connect_to_host_transparent (fam : Family) (address : Ptr)
    (service : Option Ptr) (port : Nat) (gai : Int) (before : List Candidate)
    (sin_port : Nat) (sock : Int) (pre conn : List ConnectOutcome)
    (after : List Candidate) (hpre : ∀ x ∈ pre, x.interrupted = true) :
    (connect_to_host fam address service port
        ⟨gai, before ++ ⟨sin_port, sock, pre ++ conn⟩ :: after⟩).map Result.observable =
      (connect_to_host fam address service port
        ⟨gai, before ++ ⟨sin_port, sock, conn⟩ :: after⟩).map Result.observable := by
  have h1 : ∀ x : Candidate, (before ++ x :: after).isEmpty = false := by
    intro x
    cases before <;> rfl
  rw [connect_to_host_observable, connect_to_host_observable]
  simp only [h1]
  rw [connect_loop_transparent fam port before sin_port sock pre conn after 0 0 hpre]

theorem final_connect_all_interrupted (conn : List ConnectOutcome)
    (h : ∀ x ∈ conn, x.interrupted = true) : final_connect conn = none := by
  simp only [final_connect, List.find?_eq_none]
  intro x hx
  simp [h x hx]

theorem connect_loop_all_interrupted (fam : Family) (port : Nat)
    (before : List Candidate) (c : Candidate) (after : List Candidate) (s e : Int)
    (hb : ∀ b ∈ before, b.fails = true) (hs : c.sock ≠ -1)
    (hc : ∀ x ∈ c.conn, x.interrupted = true) :
    connect_loop fam port (before ++ c :: after) s e = none := by
  induction before generalizing s e with
  | nil =>
    have hr := connect_retry_none c.sock (connect_port port c) (sizeof_sockaddr fam) c.conn
      (final_connect_all_interrupted c.conn hc)
    simp only [connect_port, bne_iff_ne, ne_eq, ite_not] at hr
    simp [connect_loop, hs, hr]
  | cons b before ih =>
    have hb2 : ∀ x ∈ before, x.fails = true :=
      fun x hx => hb x (List.mem_cons_of_mem _ hx)
    rcases fails_cases b (hb b (List.mem_cons_self _ _)) with hbs | ⟨hbs, o, ho, hres⟩
    · rw [List.cons_append, connect_loop_nosock fam port b _ s e hbs, ih (-1) (-2) hb2]
      rfl
    · obtain ⟨calls0, hr, _⟩ :=
        connect_retry_final b.sock (connect_port port b) (sizeof_sockaddr fam) b.conn o ho
      rw [List.cons_append, connect_loop_refused fam port b _ s e o.res _ hbs hr hres,
        ih b.sock (-3) hb2]
      rfl

theorem connect_to_host_all_interrupted (fam : Family) (address : Ptr)
    (service : Option Ptr) (port : Nat) (before : List Candidate) (c : Candidate)
    (after : List Candidate)
    (hb : ∀ b ∈ before, b.fails = true) (hs : c.sock ≠ -1)
    (hc : ∀ x ∈ c.conn, x.interrupted = true) :
    connect_to_host fam address service port ⟨0, before ++ c :: after⟩ = none := by
  simp [connect_to_host, connect_loop_all_interrupted fam port before c after 0 0 hb hs hc]

/-! ## Termination on scripts that settle -/

theorem settles_cases (c : Candidate) (h : c.settles = true) :
    c.sock = -1 ∨ (c.sock ≠ -1 ∧ ∃ o, final_connect c.conn = some o) := by
  by_cases hs : c.sock = -1
  · exact Or.inl hs
  · right
    refine ⟨hs, ?_⟩
    unfold Candidate.settles at h
    cases hf : final_connect c.conn with
    | none => simp [hs, hf] at h
    | some o => exact ⟨o, rfl⟩

theorem connect_loop_returns (fam : Family) (port : Nat) (cs : List Candidate)
    (s e : Int) (h : ∀ c ∈ cs, c.settles = true) :
    ∃ R, connect_loop fam port cs s e = some R := by
  induction cs generalizing s e with
  | nil => exact ⟨_, rfl⟩
  | cons c next ih =>
    have h2 : ∀ x ∈ next, x.settles = true := fun x hx => h x (List.mem_cons_of_mem _ hx)
    rcases settles_cases c (h c (List.mem_cons_self _ _)) with hs | ⟨hs, o, ho⟩
    · obtain ⟨R, hR⟩ := ih (-1) (-2) h2
      rw [connect_loop_nosock fam port c next s e hs, hR]
      exact ⟨_, rfl⟩
    · obtain ⟨calls0, hr, _⟩ :=
        connect_retry_final c.sock (connect_port port c) (sizeof_sockaddr fam) c.conn o ho
      by_cases hres : o.res = 0
      · rw [hres] at hr
        rw [connect_loop_connected fam port c next s e _ hs hr]
        exact ⟨_, rfl⟩
      · obtain ⟨R, hR⟩ := ih c.sock (-3) h2
        rw [connect_loop_refused fam port c next s e o.res _ hs hr hres, hR]
        exact ⟨_, rfl⟩

/-- When every candidate's attempt settles, `connect_to_host` returns. -/
theorem connect_to_host_returns (fam : Family) (address : Ptr) (service : Option Ptr)
    (port : Nat) (os : Resolution) (h : ∀ c ∈ os.info, c.settles = true) :
    ∃ r, connect_to_host fam address service port os = some r := by
  by_cases hg : os.gai ≠ 0 ∨ os.info = []
  · exact ⟨_, connect_to_host_unresolved fam address service port os hg⟩
  · have hg1 : os.gai = 0 := by
      by_contra hne
      exact hg (Or.inl hne)
    have hg2 : os.info ≠ [] := fun hnil => hg (Or.inr hnil)
    obtain ⟨⟨sock, err, calls⟩, hR⟩ := connect_loop_returns fam port os.info 0 0 h
    have := connect_to_host_of_loop fam address service port os.info sock err calls hg2 hR
    rw [← hg1] at this
    exact ⟨_, this⟩

/-- When the accept script holds an answer that is not an interruption,
`accept_connection` returns. -/
theorem accept_connection_returns (fam : Family) (sock : Int) (connection : Ptr)
    (buf : List Nat) (pre : List AcceptOutcome) (o : AcceptOutcome)
    (rest : List AcceptOutcome)
    (hpre : ∀ x ∈ pre, x.interrupted = true) (ho : o.interrupted = false) :
    ∃ r, accept_connection fam sock connection buf (pre ++ o :: rest) = some r := by
  obtain ⟨calls, _, hrun⟩ :=
    accept_connection_final fam sock connection buf pre o rest hpre ho
  exact ⟨_, hrun⟩

theorem accept_connection_transparent_returns (fam : Family) (sock : Int)
    (connection : Ptr) (buf : List Nat) (pre : List AcceptOutcome) (o : AcceptOutcome)
    (rest : List AcceptOutcome)
    (hpre : ∀ x ∈ pre, x.interrupted = true) (ho : o.interrupted = false) :
    ∃ r r0, accept_connection fam sock connection buf (pre ++ o :: rest) = some r ∧
      accept_connection fam sock connection buf (o :: rest) = some r0 ∧
      r.observable = r0.observable := by
  obtain ⟨r, hr⟩ := accept_connection_returns fam sock connection buf pre o rest hpre ho
  obtain ⟨r0, hr0⟩ := accept_connection_returns fam sock connection buf [] o rest
    (by simp) ho
  rw [List.nil_append] at hr0
  have ht := accept_connection_transparent fam sock connection buf pre (o :: rest) hpre
  rw [hr, hr0] at ht
  exact ⟨r, r0, hr, hr0, Option.some.inj ht⟩

/-! ## The suspension boundary -/

theorem lock_args_eq (address : Ptr) (service : Option Ptr) :
    lock_args address service = (address :: service.toList).map Event.Slock_object := by
  cases service <;> rfl

theorem unlock_args_eq (address : Ptr) (service : Option Ptr) :
    unlock_args address service = (address :: service.toList).map Event.Sunlock_object := by
  cases service <;> rfl

theorem not_runtime_of_loop_call (e : Event) (h : e.is_loop_call = true) :
    e.is_runtime = false := by
  cases e <;> simp_all [Event.is_loop_call, Event.is_runtime]

theorem not_runtime_of_retried_call (e : Event) (h : e.is_retried_call = true) :
    e.is_runtime = false := by
  cases e <;> simp_all [Event.is_retried_call, Event.is_runtime]

/-- Shape of the trace of a returning connect call. -/
theorem connect_to_host_shape (fam : Family) (address : Ptr) (service : Option Ptr)
    (port : Nat) (os : Resolution) (r : Result)
    (h : connect_to_host fam address service port os = some r) :
    ∃ mid post, r.trace =
        (address :: service.toList).map Event.Slock_object
          ++ (Event.Sdeactivate_thread :: mid)
          ++ (Event.Sactivate_thread :: (address :: service.toList).map Event.Sunlock_object)
          ++ post ∧
      (∀ e ∈ mid, e.is_runtime = false) ∧
      (∀ e ∈ post, e.is_runtime = false ∧ e.is_blocking = false) := by
  rcases connect_to_host_cases fam address service port os r h with
    ⟨_, rfl⟩ | ⟨_, _, sock, err, calls, hl, rfl⟩
  · refine ⟨[Event.getaddrinfo address service fam], [], ?_, ?_, ?_⟩
    · simp [lock_args_eq, unlock_args_eq]
    · intro e he
      simp at he
      subst he
      rfl
    · simp
  · refine ⟨Event.getaddrinfo address service fam :: calls, [Event.freeaddrinfo], ?_, ?_, ?_⟩
    · simp [lock_args_eq, unlock_args_eq]
    · intro e he
      rcases List.mem_cons.1 he with rfl | he
      · rfl
      · exact not_runtime_of_loop_call e (connect_loop_calls fam port os.info 0 0 _ hl e he)
    · intro e he
      simp at he
      subst he
      exact ⟨rfl, rfl⟩

theorem accept_connection_cases (fam : Family) (sock : Int) (connection : Ptr)
    (buf : List Nat) (os : List AcceptOutcome) (r : AcceptResult)
    (h : accept_connection fam sock connection buf os = some r) :
    ∃ calls post, (∀ e ∈ calls, e.is_retried_call = true) ∧
      (∀ e ∈ post, e.is_runtime = false ∧ e.is_blocking = false) ∧
      r.trace = [Event.Slock_object connection, Event.Sdeactivate_thread] ++ calls
        ++ [Event.Sactivate_thread, Event.Sunlock_object connection] ++ post := by
  cases hr : accept_retry sock (sizeof_sockaddr fam) (zero_addr fam) os with
  | none => simp [accept_connection, hr] at h
  | some R =>
    obtain ⟨cs, l, a, calls⟩ := R
    have hall := accept_retry_calls _ _ _ _ _ hr
    simp only [accept_connection, hr] at h
    split_ifs at h
    · refine ⟨calls, [Event.close cs], hall, ?_, ?_⟩
      · intro e he
        simp at he
        subst he
        exact ⟨rfl, rfl⟩
      · rw [← Option.some.inj h]
    · refine ⟨calls, [], hall, by simp, ?_⟩
      rw [← Option.some.inj h]
      simp
    · refine ⟨calls, [Event.memcpy connection (sizeof_in_addr fam)], hall, ?_, ?_⟩
      · intro e he
        simp at he
        subst he
        exact ⟨rfl, rfl⟩
      · rw [← Option.some.inj h]

/-- Shape of the trace of a returning accept call. -/
theorem accept_connection_shape (fam : Family) (sock : Int) (connection : Ptr)
    (buf : List Nat) (os : List AcceptOutcome) (r : AcceptResult)
    (h : accept_connection fam sock connection buf os = some r) :
    ∃ mid post, r.trace =
        [connection].map Event.Slock_object
          ++ (Event.Sdeactivate_thread :: mid)
          ++ (Event.Sactivate_thread :: [connection].map Event.Sunlock_object)
          ++ post ∧
      (∀ e ∈ mid, e.is_runtime = false) ∧
      (∀ e ∈ post, e.is_runtime = false ∧ e.is_blocking = false) := by
  obtain ⟨calls, post, hall, hpost, htr⟩ :=
    accept_connection_cases fam sock connection buf os r h
  refine ⟨calls, post, ?_, fun e he => not_runtime_of_retried_call e (hall e he), hpost⟩
  rw [htr]
  simp

/-! ## The descriptor discipline -/

theorem fd_discipline_append (held : Option Int) (a b : List Event) :
    fd_discipline held (a ++ b) =
      (fd_discipline held a).bind (fun held' => fd_discipline held' b) := by
  induction a generalizing held with
  | nil => simp [fd_discipline]
  | cons e a ih =>
    cases e with
    | socket d ret =>
      by_cases hr : ret = -1
      · simp [fd_discipline, hr, ih]
      · cases held with
        | none => simp [fd_discipline, hr, ih]
        | some x => simp [fd_discipline, hr]
    | close fd =>
      by_cases hh : held = some fd
      · simp [fd_discipline, hh, ih]
      · simp [fd_discipline, hh]
    | _ => simp [fd_discipline, ih]

theorem fd_discipline_neutral (held : Option Int) (l : List Event)
    (h : ∀ e ∈ l, e.is_socket_call = false ∧ e.is_close_call = false) :
    fd_discipline held l = some held := by
  induction l with
  | nil => rfl
  | cons e l ih =>
    have he := h e (List.mem_cons_self _ _)
    have ih2 := ih (fun x hx => h x (List.mem_cons_of_mem _ hx))
    cases e <;> simp_all [fd_discipline, Event.is_socket_call, Event.is_close_call]

/-- A trace that keeps the discipline closes as many sockets as it creates, up
to the socket held at the start and the one held at the end. -/
theorem fd_discipline_counts (held held' : Option Int) (tr : List Event)
    (h : fd_discipline held tr = some held') :
    (tr.filter Event.creates_socket).length + (if held.isSome then 1 else 0) =
      (tr.filter Event.is_close_call).length + (if held'.isSome then 1 else 0) := by
  induction tr generalizing held with
  | nil =>
    simp only [fd_discipline, Option.some.injEq] at h
    subst h
    simp
  | cons e tr ih =>
    cases e with
    | socket d ret =>
      by_cases hr : ret = -1
      · simp only [fd_discipline, hr, if_true] at h
        have := ih held h
        simpa [List.filter_cons, Event.creates_socket, Event.is_close_call, hr] using this
      · cases held with
        | none =>
          simp only [fd_discipline, hr, if_false] at h
          have := ih (some ret) h
          simp only [Option.isSome_some, if_true] at this
          simp [List.filter_cons, Event.creates_socket, Event.is_close_call, hr, ← this]
        | some x => simp [fd_discipline, hr] at h
    | close fd =>
      by_cases hh : held = some fd
      · subst hh
        simp only [fd_discipline, if_true] at h
        have := ih none h
        simp only [Option.isSome_none, Bool.false_eq_true, if_false, add_zero] at this
        simp [List.filter_cons, Event.creates_socket, Event.is_close_call, this]
        omega
      · simp [fd_discipline, hh] at h
    | _ =>
      simp only [fd_discipline] at h
      have := ih held h
      simpa [List.filter_cons, Event.creates_socket, Event.is_close_call] using this

theorem neutral_of_connect_calls (l : List Event)
    (h : ∀ e ∈ l, e.is_connect_call = true) :
    ∀ e ∈ l, e.is_socket_call = false ∧ e.is_close_call = false := by
  intro e he
  have := h e he
  cases e <;> simp_all [Event.is_connect_call, Event.is_socket_call, Event.is_close_call]

/-- The candidate loop keeps the descriptor discipline: started with no socket
held it ends holding the socket it leaves in `sock` when it broke out on a
success (`err = 0`), and holding nothing otherwise. -/
theorem connect_loop_discipline (fam : Family) (port : Nat) (cs : List Candidate)
    (s e : Int) (R : Int × Int × List Event)
    (h : connect_loop fam port cs s e = some R) (hne : cs ≠ [] ∨ e ≠ 0) :
    fd_discipline none R.2.2 = some (if R.2.1 = 0 then some R.1 else none) ∧
      (R.2.1 = 0 → ∃ c ∈ cs, c.sock = R.1 ∧ c.sock ≠ -1) ∧
      (R.2.1 = 0 ∨ R.2.1 = -2 ∨ R.2.1 = -3 ∨ (cs = [] ∧ R.2.1 = e)) := by
  induction cs generalizing s e R with
  | nil =>
    have he : e ≠ 0 := by
      rcases hne with h1 | h1
      · exact absurd rfl h1
      · exact h1
    simp only [connect_loop, Option.some.injEq] at h
    subst h
    simp [fd_discipline, he]
  | cons c next ih =>
    rcases connect_loop_cons_cases fam port c next s e R h with
      ⟨hs, R', hR', rfl⟩ | ⟨hs, res, calls, hr, hres, R', hR', rfl⟩ | ⟨hs, calls, hr, rfl⟩
    · obtain ⟨h1, h2, h3⟩ := ih (-1) (-2) R' hR' (Or.inr (by decide))
      refine ⟨?_, ?_, ?_⟩
      · simpa [fd_discipline] using h1
      · intro h0
        obtain ⟨x, hx, hx2⟩ := h2 h0
        exact ⟨x, List.mem_cons_of_mem _ hx, hx2⟩
      · rcases h3 with h3 | h3 | h3 | ⟨_, h3⟩
        · exact Or.inl h3
        · exact Or.inr (Or.inl h3)
        · exact Or.inr (Or.inr (Or.inl h3))
        · exact Or.inr (Or.inl h3)
    · obtain ⟨h1, h2, h3⟩ := ih c.sock (-3) R' hR' (Or.inr (by decide))
      have hn := fd_discipline_neutral (some c.sock) calls
        (neutral_of_connect_calls calls (connect_retry_calls _ _ _ _ _ _ hr))
      refine ⟨?_, ?_, ?_⟩
      · simp only [fd_discipline, hs, if_false]
        rw [fd_discipline_append, hn]
        simpa [fd_discipline] using h1
      · intro h0
        obtain ⟨x, hx, hx2⟩ := h2 h0
        exact ⟨x, List.mem_cons_of_mem _ hx, hx2⟩
      · rcases h3 with h3 | h3 | h3 | ⟨_, h3⟩
        · exact Or.inl h3
        · exact Or.inr (Or.inl h3)
        · exact Or.inr (Or.inr (Or.inl h3))
        · exact Or.inr (Or.inr (Or.inl h3))
    · have hn := fd_discipline_neutral (some c.sock) calls
        (neutral_of_connect_calls calls (connect_retry_calls _ _ _ _ _ _ hr))
      refine ⟨?_, ?_, Or.inl rfl⟩
      · simp only [fd_discipline, hs, if_false]
        simpa using hn
      · intro _
        exact ⟨c, List.mem_cons_self _ _, rfl, hs⟩

theorem neutral_lock_args (address : Ptr) (service : Option Ptr) :
    ∀ e ∈ lock_args address service,
      e.is_socket_call = false ∧ e.is_close_call = false := by
  cases service <;> simp [lock_args, Event.is_socket_call, Event.is_close_call]

theorem neutral_unlock_args (address : Ptr) (service : Option Ptr) :
    ∀ e ∈ unlock_args address service,
      e.is_socket_call = false ∧ e.is_close_call = false := by
  cases service <;> simp [unlock_args, Event.is_socket_call, Event.is_close_call]

/-- A returning connect call keeps the descriptor discipline and ends holding
exactly the descriptor it returns, if it returns one. -/
theorem connect_to_host_discipline (fam : Family) (address : Ptr)
    (service : Option Ptr) (port : Nat) (os : Resolution)
    (hwf : ∀ c ∈ os.info, c.sock = -1 ∨ 0 ≤ c.sock) (r : Result)
    (h : connect_to_host fam address service port os = some r) :
    fd_discipline none r.trace = some (if 0 ≤ r.ret then some r.ret else none) := by
  have hentry : ∀ e ∈ lock_args address service ++
      [Event.Sdeactivate_thread, Event.getaddrinfo address service fam],
      e.is_socket_call = false ∧ e.is_close_call = false := by
    intro e he
    rcases List.mem_append.1 he with he | he
    · exact neutral_lock_args address service e he
    · simp at he
      rcases he with rfl | rfl <;> exact ⟨rfl, rfl⟩
  have hexit : ∀ e ∈ Event.Sactivate_thread :: unlock_args address service,
      e.is_socket_call = false ∧ e.is_close_call = false := by
    intro e he
    rcases List.mem_cons.1 he with rfl | he
    · exact ⟨rfl, rfl⟩
    · exact neutral_unlock_args address service e he
  have hfree : ∀ e ∈ [Event.freeaddrinfo],
      e.is_socket_call = false ∧ e.is_close_call = false := by
    intro e he
    simp at he
    subst he
    exact ⟨rfl, rfl⟩
  rcases connect_to_host_cases fam address service port os r h with
    ⟨_, rfl⟩ | ⟨_, _, sock, err, calls, hl, rfl⟩
  · simp only [fd_discipline_append, fd_discipline_neutral _ _ hentry,
      fd_discipline_neutral _ _ hexit, Option.some_bind]
    simp
  · obtain ⟨h1, h2, h3⟩ := connect_loop_discipline fam port os.info 0 0 _ hl
      (Or.inl (by assumption))
    simp only at h1 h2 h3
    simp only [fd_discipline_append, fd_discipline_neutral _ _ hentry, Option.some_bind, h1,
      fd_discipline_neutral _ _ hexit, fd_discipline_neutral _ _ hfree]
    by_cases herr : err = 0
    · obtain ⟨c, hc, hcs, hcne⟩ := h2 herr
      have hpos : 0 ≤ sock := by
        rcases hwf c hc with hw | hw
        · exact absurd hw hcne
        · rw [← hcs]
          exact hw
      simp [herr, hpos]
    · have hneg : ¬ (0 ≤ err) := by
        rcases h3 with h3 | h3 | h3 | ⟨h3, _⟩
        · exact absurd h3 herr
        · rw [h3]
          decide
        · rw [h3]
          decide
        · rename_i hinfo _
          exact absurd h3 hinfo
      simp [herr, hneg]

/-! ## The claims -/

/-- C1: in `connect_to_ipv4_host` and `connect_to_ipv6_host`, when resolution
succeeds with a list `before ++ c :: after` in which every candidate of
`before` fails and `c` gets a socket and connects, the call returns the
descriptor created for `c`; the later candidates are never looked at (the
whole result, trace included, is that of the list cut after `c`), exactly one
`socket()` call is made per candidate up to and including `c`, and the
successful `connect` is directly followed by the exit sequence, so no socket
is created and no connect attempted afterwards. -/
theorem connect_returns_first_connecting_candidate (address : Ptr)
    (service : Option Ptr) (port : Nat) (before : List Candidate) (c : Candidate)
    (after : List Candidate)
    (hb : ∀ b ∈ before, b.fails = true) (hc : c.connects = true) :
    ∀ connect_fn ∈ [connect_to_ipv4_host, connect_to_ipv6_host],
      ∃ r, connect_fn address service port ⟨0, before ++ c :: after⟩ = some r ∧
        r.ret = c.sock ∧
        connect_fn address service port ⟨0, before ++ [c]⟩ = some r ∧
        (r.trace.filter Event.is_socket_call).length = before.length + 1 ∧
        ∃ t p l, r.trace = t ++ Event.connect c.sock p l 0 :: Event.Sactivate_thread ::
          (unlock_args address service ++ [Event.freeaddrinfo]) := by
  intro connect_fn hf
  simp only [List.mem_cons, List.mem_singleton, List.not_mem_nil, or_false] at hf
  rcases hf with rfl | rfl
  · exact connect_to_host_first_success Family.AF_INET address service port before c after hb hc
  · exact connect_to_host_first_success Family.AF_INET6 address service port before c after hb hc

theorem connect_returns_first_connecting_candidate_witness :
    (∀ b ∈ [(⟨80, -1, []⟩ : Candidate), ⟨80, 3, [⟨-1, EINTR⟩, ⟨-1, 111⟩]⟩],
        b.fails = true) ∧
      (⟨80, 4, [⟨-1, EINTR⟩, ⟨0, 0⟩]⟩ : Candidate).connects = true ∧
      ∃ r, connect_to_ipv4_host 100 none 8080
          ⟨0, [⟨80, -1, []⟩, ⟨80, 3, [⟨-1, EINTR⟩, ⟨-1, 111⟩]⟩,
            ⟨80, 4, [⟨-1, EINTR⟩, ⟨0, 0⟩]⟩, ⟨80, 5, [⟨0, 0⟩]⟩]⟩ = some r ∧
        r.ret = 4 :=
  ⟨by decide, by decide,
    (connect_returns_first_connecting_candidate 100 none 8080
      [⟨80, -1, []⟩, ⟨80, 3, [⟨-1, EINTR⟩, ⟨-1, 111⟩]⟩]
      ⟨80, 4, [⟨-1, EINTR⟩, ⟨0, 0⟩]⟩ [⟨80, 5, [⟨0, 0⟩]⟩] (by decide) (by decide)
      connect_to_ipv4_host (by simp)).imp (fun _ h => ⟨h.1, h.2.1⟩)⟩

/-- C2: in `connect_to_ipv4_host` and `connect_to_ipv6_host`, when resolution
succeeds with a non-empty list `init ++ [last]` in which every candidate
fails, the call returns the error of the last candidate alone: -2 when its
`socket()` failed, -3 when its connect failed, whatever the earlier
candidates did; the value is never -1. -/
theorem connect_all_fail_returns_last_error (address : Ptr) (service : Option Ptr)
    (port : Nat) (init : List Candidate) (last : Candidate)
    (h : ∀ c ∈ init ++ [last], c.fails = true) :
    ∀ connect_fn ∈ [connect_to_ipv4_host, connect_to_ipv6_host],
      ∃ r, connect_fn address service port ⟨0, init ++ [last]⟩ = some r ∧
        r.ret = (if last.sock = -1 then -2 else -3) ∧ r.ret ≠ -1 := by
  intro connect_fn hf
  simp only [List.mem_cons, List.mem_singleton, List.not_mem_nil, or_false] at hf
  rcases hf with rfl | rfl
  · exact connect_to_host_all_fail Family.AF_INET address service port init last h
  · exact connect_to_host_all_fail Family.AF_INET6 address service port init last h

theorem connect_all_fail_returns_last_error_witness :
    (∀ c ∈ [(⟨80, 3, [⟨-1, EINTR⟩, ⟨-1, 111⟩]⟩ : Candidate)] ++ [⟨80, -1, []⟩],
        c.fails = true) ∧
      ∃ r, connect_to_ipv6_host 100 (some 200) 0
          ⟨0, [⟨80, 3, [⟨-1, EINTR⟩, ⟨-1, 111⟩]⟩] ++ [⟨80, -1, []⟩]⟩ = some r ∧
        r.ret = -2 :=
  ⟨by decide,
    (connect_all_fail_returns_last_error 100 (some 200) 0
      [⟨80, 3, [⟨-1, EINTR⟩, ⟨-1, 111⟩]⟩] ⟨80, -1, []⟩ (by decide)
      connect_to_ipv6_host (by simp)).imp (fun _ h => ⟨h.1, h.2.1⟩)⟩

/-- C3 (as the code has it): `connect_to_ipv4_host` and `connect_to_ipv6_host`
do not validate `service == NULL` with `port == 0`. For every address, a call
that returns has called `getaddrinfo` exactly once, with the NULL service; and
when that resolution fails or yields no candidate the call returns -1, having
called `getaddrinfo`. -/
theorem connect_null_service_zero_port_resolves (address : Ptr) (os : Resolution) :
    ∀ p ∈ [(Family.AF_INET, connect_to_ipv4_host), (Family.AF_INET6, connect_to_ipv6_host)],
      (∀ r, p.2 address none 0 os = some r →
        r.trace.count (Event.getaddrinfo address none p.1) = 1) ∧
      ((os.gai ≠ 0 ∨ os.info = []) →
        ∃ tr, p.2 address none 0 os = some ⟨-1, tr⟩ ∧
          Event.getaddrinfo address none p.1 ∈ tr) := by
  intro p hp
  simp only [List.mem_cons, List.mem_singleton, List.not_mem_nil, or_false] at hp
  rcases hp with rfl | rfl
  · exact connect_null_service_zero_port Family.AF_INET address os
  · exact connect_null_service_zero_port Family.AF_INET6 address os

theorem connect_null_service_zero_port_resolves_witness :
    ((-2 : Int) ≠ 0 ∨ ([] : List Candidate) = []) ∧
      ∃ tr, connect_to_ipv4_host 100 none 0 ⟨-2, []⟩ = some ⟨-1, tr⟩ ∧
        Event.getaddrinfo 100 none Family.AF_INET ∈ tr :=
  ⟨by decide,
    (connect_null_service_zero_port_resolves 100 ⟨-2, []⟩
      (Family.AF_INET, connect_to_ipv4_host) (by simp)).2 (by decide)⟩

/-- C3 as stated fails: with `service` NULL and `port` 0 the call goes straight
to `getaddrinfo`; here resolution fails and -1 comes back after the call. -/
theorem connect_null_service_zero_port_calls_getaddrinfo :
    connect_to_ipv4_host 100 none 0 ⟨-2, []⟩ =
        some ⟨-1, [Event.Slock_object 100, Event.Sdeactivate_thread,
          Event.getaddrinfo 100 none Family.AF_INET,
          Event.Sactivate_thread, Event.Sunlock_object 100]⟩ ∧
      connect_to_ipv6_host 100 none 0 ⟨-2, []⟩ =
        some ⟨-1, [Event.Slock_object 100, Event.Sdeactivate_thread,
          Event.getaddrinfo 100 none Family.AF_INET6,
          Event.Sactivate_thread, Event.Sunlock_object 100]⟩ := by
  constructor <;> rfl

/-- C4: in `listen_on_ipv4_socket` and `listen_on_ipv6_socket`, for every
`local`, `port` and `backlog`, once the address is made (so that `socket()` is
reached): a failed `socket()` gives -2 with no bind and no listen call; a
failed bind gives -3, the only close call is one close of the created socket,
and there is no listen call; a failed listen gives -4 with that same single
close; otherwise the created socket is returned and nothing is closed. -/
theorem listen_error_paths (local_ : Int) (port : Nat) (backlog : Int) (os : ListenOS)
    (haddr : local_ = 0 ∨ os.inet_pton ≠ -1) :
    ∀ listen_fn ∈ [listen_on_ipv4_socket, listen_on_ipv6_socket],
      (os.socket = -1 →
        (listen_fn local_ port backlog os).ret = -2 ∧
        ∀ e ∈ (listen_fn local_ port backlog os).trace,
          e.is_bind_call = false ∧ e.is_listen_call = false) ∧
      (os.socket ≠ -1 → os.bind = -1 →
        (listen_fn local_ port backlog os).ret = -3 ∧
        (listen_fn local_ port backlog os).trace.filter Event.is_close_call
          = [Event.close os.socket] ∧
        ∀ e ∈ (listen_fn local_ port backlog os).trace, e.is_listen_call = false) ∧
      (os.socket ≠ -1 → os.bind ≠ -1 → os.listen = -1 →
        (listen_fn local_ port backlog os).ret = -4 ∧
        (listen_fn local_ port backlog os).trace.filter Event.is_close_call
          = [Event.close os.socket]) ∧
      (os.socket ≠ -1 → os.bind ≠ -1 → os.listen ≠ -1 →
        (listen_fn local_ port backlog os).ret = os.socket ∧
        (listen_fn local_ port backlog os).trace.filter Event.is_close_call = []) := by
  intro listen_fn hf
  simp only [List.mem_cons, List.mem_singleton, List.not_mem_nil, or_false] at hf
  rcases hf with rfl | rfl
  · exact listen_on_socket_paths Family.AF_INET local_ port backlog os haddr
  · exact listen_on_socket_paths Family.AF_INET6 local_ port backlog os haddr

theorem listen_error_paths_witness :
    ((1 : Int) = 0 ∨ (1 : Int) ≠ -1) ∧
      (listen_on_ipv4_socket 1 8080 5 ⟨1, 3, -1, 0⟩).ret = -3 ∧
      (listen_on_ipv4_socket 1 8080 5 ⟨1, 3, -1, 0⟩).trace.filter Event.is_close_call
        = [Event.close 3] :=
  ⟨by decide,
    (((listen_error_paths 1 8080 5 ⟨1, 3, -1, 0⟩ (by decide)
      listen_on_ipv4_socket (by simp)).2.1 (by decide) (by decide)).1),
    (((listen_error_paths 1 8080 5 ⟨1, 3, -1, 0⟩ (by decide)
      listen_on_ipv4_socket (by simp)).2.1 (by decide) (by decide)).2.1)⟩

/-- C5: in `accept_ipv4_connection` and `accept_ipv6_connection`, whenever the
accept loop ends (after any interruptions) with an answer whose reported
address length exceeds the size of the family's address structure, the call
returns -1, its only close call is one close of the descriptor accept
returned, the caller's buffer holds what it held before and no copy into it
is made; a descriptor that accept did return is not the value returned. -/
theorem accept_oversized_address_length (sock : Int) (connection : Ptr)
    (buf : List Nat) (pre : List AcceptOutcome) (o : AcceptOutcome)
    (rest : List AcceptOutcome)
    (hpre : ∀ x ∈ pre, x.interrupted = true) (ho : o.interrupted = false) :
    ∀ p ∈ [(Family.AF_INET, accept_ipv4_connection),
        (Family.AF_INET6, accept_ipv6_connection)],
      o.addr_len > sizeof_sockaddr p.1 →
      ∃ r, p.2 sock connection buf (pre ++ o :: rest) = some r ∧
        r.ret = -1 ∧ r.connection = buf ∧
        r.trace.filter Event.is_close_call = [Event.close o.ret] ∧
        r.trace.filter Event.is_memcpy_call = [] ∧
        (o.ret ≠ -1 → r.ret ≠ o.ret) := by
  intro p hp hlen
  simp only [List.mem_cons, List.mem_singleton, List.not_mem_nil, or_false] at hp
  rcases hp with rfl | rfl
  · exact accept_connection_oversized Family.AF_INET sock connection buf pre o rest
      hpre ho hlen
  · exact accept_connection_oversized Family.AF_INET6 sock connection buf pre o rest
      hpre ho hlen

theorem accept_oversized_address_length_witness :
    (∀ x ∈ [(⟨-1, EINTR, 16, [0, 0, 0, 0]⟩ : AcceptOutcome)], x.interrupted = true) ∧
      (⟨5, 0, 17, [127, 0, 0, 1]⟩ : AcceptOutcome).interrupted = false ∧
      17 > sizeof_sockaddr Family.AF_INET ∧
      ∃ r, accept_ipv4_connection 3 500 [9, 9, 9, 9]
          ([⟨-1, EINTR, 16, [0, 0, 0, 0]⟩] ++ ⟨5, 0, 17, [127, 0, 0, 1]⟩ :: []) = some r ∧
        r.ret = -1 ∧ r.connection = [9, 9, 9, 9] ∧
        r.trace.filter Event.is_close_call = [Event.close 5] :=
  ⟨by decide, by decide, by decide,
    (accept_oversized_address_length 3 500 [9, 9, 9, 9] [⟨-1, EINTR, 16, [0, 0, 0, 0]⟩]
      ⟨5, 0, 17, [127, 0, 0, 1]⟩ [] (by decide) (by decide)
      (Family.AF_INET, accept_ipv4_connection) (by simp) (by decide)).imp
      (fun _ h => ⟨h.1, h.2.1, h.2.2.1, h.2.2.2.1⟩)⟩

/-- C6 (as the code has it): `accept_ipv4_connection` and
`accept_ipv6_connection` return one and the same value, -1, both when the
accept call itself fails and when the reported address length is oversized. -/
theorem accept_failures_return_minus_one (sock : Int) (connection : Ptr)
    (buf : List Nat) (pre : List AcceptOutcome) (o : AcceptOutcome)
    (rest : List AcceptOutcome)
    (hpre : ∀ x ∈ pre, x.interrupted = true) (ho : o.interrupted = false) :
    ∀ p ∈ [(Family.AF_INET, accept_ipv4_connection),
        (Family.AF_INET6, accept_ipv6_connection)],
      (o.ret = -1 ∨ o.addr_len > sizeof_sockaddr p.1) →
      ∃ r, p.2 sock connection buf (pre ++ o :: rest) = some r ∧ r.ret = -1 := by
  intro p hp hfail
  simp only [List.mem_cons, List.mem_singleton, List.not_mem_nil, or_false] at hp
  rcases hp with rfl | rfl
  · exact accept_connection_failure_value Family.AF_INET sock connection buf pre o rest
      hpre ho hfail
  · exact accept_connection_failure_value Family.AF_INET6 sock connection buf pre o rest
      hpre ho hfail

theorem accept_failures_return_minus_one_witness :
    (∀ x ∈ ([] : List AcceptOutcome), x.interrupted = true) ∧
      (⟨-1, 103, 28, []⟩ : AcceptOutcome).interrupted = false ∧
      ((-1 : Int) = -1 ∨ 28 > sizeof_sockaddr Family.AF_INET6) ∧
      ∃ r, accept_ipv6_connection 3 500 [] ([] ++ ⟨-1, 103, 28, []⟩ :: []) = some r ∧
        r.ret = -1 :=
  ⟨by decide, by decide, by decide,
    accept_failures_return_minus_one 3 500 [] [] ⟨-1, 103, 28, []⟩ []
      (by decide) (by decide) (Family.AF_INET6, accept_ipv6_connection) (by simp)
      (by decide)⟩

/-- C6 as stated fails: a failed accept (ECONNABORTED) and an oversized
address length give the caller the same return value. -/
theorem accept_error_kinds_share_return_value :
    (accept_ipv4_connection 3 500 [9, 9, 9, 9] [⟨-1, 103, 16, [0, 0, 0, 0]⟩]).map
        AcceptResult.ret = some (-1) ∧
      (accept_ipv4_connection 3 500 [9, 9, 9, 9] [⟨5, 0, 17, [127, 0, 0, 1]⟩]).map
        AcceptResult.ret = some (-1) ∧
      (accept_ipv6_connection 3 500 [] [⟨-1, 103, 28, []⟩]).map
        AcceptResult.ret = some (-1) ∧
      (accept_ipv6_connection 3 500 [] [⟨5, 0, 29, []⟩]).map
        AcceptResult.ret = some (-1) := by
  refine ⟨?_, ?_, ?_, ?_⟩ <;> rfl

/-- C7: interruptions are invisible. (1) In `accept_ipv4_connection` and
`accept_ipv6_connection`, when accept is interrupted any number of times and
then answers `o`, the call returns, and its return value, the caller's buffer
and its calls other than the retried accept are those of the call where accept
answers `o` at once. (2) In `connect_to_ipv4_host` and `connect_to_ipv6_host`,
putting any number of interruptions in front of any candidate's connect
answers changes neither the return value nor the calls other than the retried
connect (so not the sockets created and closed). (3), (4) An interruption is
never what a call returns on: while accept, or the connect of the candidate the
loop has reached, keeps being interrupted, the call has not returned. -/
theorem interruptions_are_transparent :
    (∀ (sock : Int) (connection : Ptr) (buf : List Nat) (pre : List AcceptOutcome)
        (o : AcceptOutcome) (rest : List AcceptOutcome),
      (∀ x ∈ pre, x.interrupted = true) → o.interrupted = false →
      ∀ accept_fn ∈ [accept_ipv4_connection, accept_ipv6_connection],
        ∃ r r0, accept_fn sock connection buf (pre ++ o :: rest) = some r ∧
          accept_fn sock connection buf (o :: rest) = some r0 ∧
          r.observable = r0.observable) ∧
    (∀ (address : Ptr) (service : Option Ptr) (port : Nat) (gai : Int)
        (before : List Candidate) (sin_port : Nat) (sock : Int)
        (pre conn : List ConnectOutcome) (after : List Candidate),
      (∀ x ∈ pre, x.interrupted = true) →
      ∀ connect_fn ∈ [connect_to_ipv4_host, connect_to_ipv6_host],
        (connect_fn address service port
            ⟨gai, before ++ ⟨sin_port, sock, pre ++ conn⟩ :: after⟩).map Result.observable =
          (connect_fn address service port
            ⟨gai, before ++ ⟨sin_port, sock, conn⟩ :: after⟩).map Result.observable) ∧
    (∀ (sock : Int) (connection : Ptr) (buf : List Nat) (os : List AcceptOutcome),
      (∀ x ∈ os, x.interrupted = true) →
      ∀ accept_fn ∈ [accept_ipv4_connection, accept_ipv6_connection],
        accept_fn sock connection buf os = none) ∧
    (∀ (address : Ptr) (service : Option Ptr) (port : Nat) (before : List Candidate)
        (c : Candidate) (after : List Candidate),
      (∀ b ∈ before, b.fails = true) → c.sock ≠ -1 →
      (∀ x ∈ c.conn, x.interrupted = true) →
      ∀ connect_fn ∈ [connect_to_ipv4_host, connect_to_ipv6_host],
        connect_fn address service port ⟨0, before ++ c :: after⟩ = none) := by
  refine ⟨?_, ?_, ?_, ?_⟩
  · intro sock connection buf pre o rest hpre ho accept_fn hf
    simp only [List.mem_cons, List.mem_singleton, List.not_mem_nil, or_false] at hf
    rcases hf with rfl | rfl
    · exact accept_connection_transparent_returns Family.AF_INET sock connection buf
        pre o rest hpre ho
    · exact accept_connection_transparent_returns Family.AF_INET6 sock connection buf
        pre o rest hpre ho
  · intro address service port gai before sin_port sock pre conn after hpre connect_fn hf
    simp only [List.mem_cons, List.mem_singleton, List.not_mem_nil, or_false] at hf
    rcases hf with rfl | rfl
    · exact connect_to_host_transparent Family.AF_INET address service port gai before
        sin_port sock pre conn after hpre
    · exact connect_to_host_transparent Family.AF_INET6 address service port gai before
        sin_port sock pre conn after hpre
  · intro sock connection buf os hos accept_fn hf
    simp only [List.mem_cons, List.mem_singleton, List.not_mem_nil, or_false] at hf
    rcases hf with rfl | rfl
    · exact accept_connection_all_interrupted Family.AF_INET sock connection buf os hos
    · exact accept_connection_all_interrupted Family.AF_INET6 sock connection buf os hos
  · intro address service port before c after hb hs hc connect_fn hf
    simp only [List.mem_cons, List.mem_singleton, List.not_mem_nil, or_false] at hf
    rcases hf with rfl | rfl
    · exact connect_to_host_all_interrupted Family.AF_INET address service port before c
        after hb hs hc
    · exact connect_to_host_all_interrupted Family.AF_INET6 address service port before c
        after hb hs hc

theorem interruptions_are_transparent_witness :
    (∀ x ∈ [(⟨-1, EINTR, 16, [0, 0, 0, 0]⟩ : AcceptOutcome), ⟨-1, EINTR, 16, [0, 0, 0, 0]⟩],
        x.interrupted = true) ∧
      (⟨5, 0, 16, [127, 0, 0, 1]⟩ : AcceptOutcome).interrupted = false ∧
      (∃ r r0, accept_ipv4_connection 3 500 [9, 9, 9, 9]
            ([⟨-1, EINTR, 16, [0, 0, 0, 0]⟩, ⟨-1, EINTR, 16, [0, 0, 0, 0]⟩]
              ++ ⟨5, 0, 16, [127, 0, 0, 1]⟩ :: []) = some r ∧
          accept_ipv4_connection 3 500 [9, 9, 9, 9] (⟨5, 0, 16, [127, 0, 0, 1]⟩ :: [])
            = some r0 ∧
          r.observable = r0.observable) ∧
      (∀ x ∈ [(⟨-1, EINTR⟩ : ConnectOutcome)], x.interrupted = true) ∧
      (connect_to_ipv4_host 100 none 80
          ⟨0, [] ++ ⟨80, 3, [⟨-1, EINTR⟩] ++ [⟨0, 0⟩]⟩ :: []⟩).map Result.observable =
        (connect_to_ipv4_host 100 none 80
          ⟨0, [] ++ ⟨80, 3, [⟨0, 0⟩]⟩ :: []⟩).map Result.observable :=
  ⟨by decide, by decide,
    interruptions_are_transparent.1 3 500 [9, 9, 9, 9]
      [⟨-1, EINTR, 16, [0, 0, 0, 0]⟩, ⟨-1, EINTR, 16, [0, 0, 0, 0]⟩]
      ⟨5, 0, 16, [127, 0, 0, 1]⟩ [] (by decide) (by decide)
      accept_ipv4_connection (by simp),
    by decide,
    interruptions_are_transparent.2.1 100 none 80 0 [] 80 3 [⟨-1, EINTR⟩] [⟨0, 0⟩] []
      (by decide) connect_to_ipv4_host (by simp)⟩

/-- C8: the runtime calls are balanced and nested on every exit path. Every
returning call of `connect_to_ipv4_host` / `connect_to_ipv6_host` (early
return after a failed resolution, all candidates failed, success) and of
`accept_ipv4_connection` / `accept_ipv6_connection` has a trace of the form
pins, `Sdeactivate_thread`, `mid`, `Sactivate_thread`, unpins, `post`: one
`Slock_object` per buffer passed in (address, service when not NULL; the peer
buffer), then the single deactivate, then the single activate, then one
`Sunlock_object` per buffer; `mid` and `post` hold no runtime call, and `post`
holds no blocking call, so `getaddrinfo`, `connect` and `accept` all sit
between deactivate and activate. The calls do return whenever every
candidate's attempt settles, respectively whenever accept gives an answer
that is not an interruption. -/
theorem suspension_boundary_is_balanced :
    (∀ (address : Ptr) (service : Option Ptr) (port : Nat) (os : Resolution),
      ∀ connect_fn ∈ [connect_to_ipv4_host, connect_to_ipv6_host],
        (∀ r, connect_fn address service port os = some r →
          ∃ mid post, r.trace =
              (address :: service.toList).map Event.Slock_object
                ++ (Event.Sdeactivate_thread :: mid)
                ++ (Event.Sactivate_thread ::
                  (address :: service.toList).map Event.Sunlock_object)
                ++ post ∧
            (∀ e ∈ mid, e.is_runtime = false) ∧
            (∀ e ∈ post, e.is_runtime = false ∧ e.is_blocking = false)) ∧
        ((∀ c ∈ os.info, c.settles = true) →
          ∃ r, connect_fn address service port os = some r)) ∧
    (∀ (sock : Int) (connection : Ptr) (buf : List Nat) (os : List AcceptOutcome),
      ∀ accept_fn ∈ [accept_ipv4_connection, accept_ipv6_connection],
        (∀ r, accept_fn sock connection buf os = some r →
          ∃ mid post, r.trace =
              [connection].map Event.Slock_object
                ++ (Event.Sdeactivate_thread :: mid)
                ++ (Event.Sactivate_thread :: [connection].map Event.Sunlock_object)
                ++ post ∧
            (∀ e ∈ mid, e.is_runtime = false) ∧
            (∀ e ∈ post, e.is_runtime = false ∧ e.is_blocking = false)) ∧
        (∀ pre o rest, os = pre ++ o :: rest →
          (∀ x ∈ pre, x.interrupted = true) → o.interrupted = false →
          ∃ r, accept_fn sock connection buf os = some r)) := by
  refine ⟨?_, ?_⟩
  · intro address service port os connect_fn hf
    simp only [List.mem_cons, List.mem_singleton, List.not_mem_nil, or_false] at hf
    rcases hf with rfl | rfl
    · exact ⟨fun r h => connect_to_host_shape Family.AF_INET address service port os r h,
        fun h => connect_to_host_returns Family.AF_INET address service port os h⟩
    · exact ⟨fun r h => connect_to_host_shape Family.AF_INET6 address service port os r h,
        fun h => connect_to_host_returns Family.AF_INET6 address service port os h⟩
  · intro sock connection buf os accept_fn hf
    simp only [List.mem_cons, List.mem_singleton, List.not_mem_nil, or_false] at hf
    rcases hf with rfl | rfl
    · refine ⟨fun r h => accept_connection_shape Family.AF_INET sock connection buf os r h,
        ?_⟩
      intro pre o rest hos hpre ho
      subst hos
      exact accept_connection_returns Family.AF_INET sock connection buf pre o rest hpre ho
    · refine ⟨fun r h => accept_connection_shape Family.AF_INET6 sock connection buf os r h,
        ?_⟩
      intro pre o rest hos hpre ho
      subst hos
      exact accept_connection_returns Family.AF_INET6 sock connection buf pre o rest hpre ho

theorem suspension_boundary_is_balanced_witness :
    connect_to_ipv4_host 100 (some 200) 0 ⟨0, [⟨80, 3, [⟨-1, 111⟩]⟩]⟩ =
        some ⟨-3, [Event.Slock_object 100, Event.Slock_object 200,
          Event.Sdeactivate_thread, Event.getaddrinfo 100 (some 200) Family.AF_INET,
          Event.socket Family.AF_INET 3, Event.connect 3 80 16 (-1), Event.close 3,
          Event.Sactivate_thread, Event.Sunlock_object 100, Event.Sunlock_object 200,
          Event.freeaddrinfo]⟩ ∧
      ∃ mid post, [Event.Slock_object 100, Event.Slock_object 200,
          Event.Sdeactivate_thread, Event.getaddrinfo 100 (some 200) Family.AF_INET,
          Event.socket Family.AF_INET 3, Event.connect 3 80 16 (-1), Event.close 3,
          Event.Sactivate_thread, Event.Sunlock_object 100, Event.Sunlock_object 200,
          Event.freeaddrinfo] =
            (100 :: (some 200 : Option Ptr).toList).map Event.Slock_object
              ++ (Event.Sdeactivate_thread :: mid)
              ++ (Event.Sactivate_thread ::
                (100 :: (some 200 : Option Ptr).toList).map Event.Sunlock_object)
              ++ post ∧
          (∀ e ∈ mid, e.is_runtime = false) ∧
          (∀ e ∈ post, e.is_runtime = false ∧ e.is_blocking = false) :=
  ⟨rfl,
    (suspension_boundary_is_balanced.1 100 (some 200) 0 ⟨0, [⟨80, 3, [⟨-1, 111⟩]⟩]⟩
      connect_to_ipv4_host (by simp)).1
      ⟨-3, [Event.Slock_object 100, Event.Slock_object 200,
        Event.Sdeactivate_thread, Event.getaddrinfo 100 (some 200) Family.AF_INET,
        Event.socket Family.AF_INET 3, Event.connect 3 80 16 (-1), Event.close 3,
        Event.Sactivate_thread, Event.Sunlock_object 100, Event.Sunlock_object 200,
        Event.freeaddrinfo]⟩ rfl⟩

/-- C10: in every returning call of `connect_to_ipv4_host` /
`connect_to_ipv6_host`, whatever the candidate list and the socket/connect
answers (with `socket()` answering -1 or a non-negative descriptor), the trace
keeps the descriptor discipline checked by `fd_discipline`: a socket is created
only while none created earlier is still open, and every close is of the one
socket open at that moment, so each created socket is closed at most once and
before the next is created; at the end the only socket left open is the
returned descriptor when the call succeeds, and none when it returns an
error. In numbers: the call makes as many close calls as it creates sockets,
less one when it returns a descriptor. The call does return whenever every
candidate's attempt settles. -/
theorem connect_descriptor_discipline (address : Ptr) (service : Option Ptr)
    (port : Nat) (os : Resolution)
    (hwf : ∀ c ∈ os.info, c.sock = -1 ∨ 0 ≤ c.sock) :
    ∀ connect_fn ∈ [connect_to_ipv4_host, connect_to_ipv6_host],
      (∀ r, connect_fn address service port os = some r →
        fd_discipline none r.trace = some (if 0 ≤ r.ret then some r.ret else none) ∧
        (r.trace.filter Event.creates_socket).length =
          (r.trace.filter Event.is_close_call).length + (if 0 ≤ r.ret then 1 else 0)) ∧
      ((∀ c ∈ os.info, c.settles = true) →
        ∃ r, connect_fn address service port os = some r) := by
  have key : ∀ fam r, connect_to_host fam address service port os = some r →
      fd_discipline none r.trace = some (if 0 ≤ r.ret then some r.ret else none) ∧
      (r.trace.filter Event.creates_socket).length =
        (r.trace.filter Event.is_close_call).length + (if 0 ≤ r.ret then 1 else 0) := by
    intro fam r h
    have hd := connect_to_host_discipline fam address service port os hwf r h
    refine ⟨hd, ?_⟩
    have hc := fd_discipline_counts _ _ _ hd
    by_cases hret : 0 ≤ r.ret
    · simpa [hret] using hc
    · simpa [hret] using hc
  intro connect_fn hf
  simp only [List.mem_cons, List.mem_singleton, List.not_mem_nil, or_false] at hf
  rcases hf with rfl | rfl
  · exact ⟨fun r h => key Family.AF_INET r h,
      fun h => connect_to_host_returns Family.AF_INET address service port os h⟩
  · exact ⟨fun r h => key Family.AF_INET6 r h,
      fun h => connect_to_host_returns Family.AF_INET6 address service port os h⟩

theorem connect_descriptor_discipline_witness :
    (∀ c ∈ [(⟨80, 3, [⟨-1, 111⟩]⟩ : Candidate), ⟨80, -1, []⟩, ⟨80, 3, [⟨0, 0⟩]⟩],
        c.sock = -1 ∨ 0 ≤ c.sock) ∧
      connect_to_ipv6_host 100 none 0
          ⟨0, [⟨80, 3, [⟨-1, 111⟩]⟩, ⟨80, -1, []⟩, ⟨80, 3, [⟨0, 0⟩]⟩]⟩ =
        some ⟨3, [Event.Slock_object 100, Event.Sdeactivate_thread,
          Event.getaddrinfo 100 none Family.AF_INET6,
          Event.socket Family.AF_INET6 3, Event.connect 3 80 28 (-1), Event.close 3,
          Event.socket Family.AF_INET6 (-1),
          Event.socket Family.AF_INET6 3, Event.connect 3 80 28 0,
          Event.Sactivate_thread, Event.Sunlock_object 100, Event.freeaddrinfo]⟩ ∧
      fd_discipline none [Event.Slock_object 100, Event.Sdeactivate_thread,
          Event.getaddrinfo 100 none Family.AF_INET6,
          Event.socket Family.AF_INET6 3, Event.connect 3 80 28 (-1), Event.close 3,
          Event.socket Family.AF_INET6 (-1),
          Event.socket Family.AF_INET6 3, Event.connect 3 80 28 0,
          Event.Sactivate_thread, Event.Sunlock_object 100, Event.freeaddrinfo]
        = some (some 3) :=
  ⟨by decide, rfl,
    ((connect_descriptor_discipline 100 none 0
      ⟨0, [⟨80, 3, [⟨-1, 111⟩]⟩, ⟨80, -1, []⟩, ⟨80, 3, [⟨0, 0⟩]⟩]⟩ (by decide)
      connect_to_ipv6_host (by simp)).1
      ⟨3, [Event.Slock_object 100, Event.Sdeactivate_thread,
        Event.getaddrinfo 100 none Family.AF_INET6,
        Event.socket Family.AF_INET6 3, Event.connect 3 80 28 (-1), Event.close 3,
        Event.socket Family.AF_INET6 (-1),
        Event.socket Family.AF_INET6 3, Event.connect 3 80 28 0,
        Event.Sactivate_thread, Event.Sunlock_object 100, Event.freeaddrinfo]⟩ rfl).1⟩

end ChezSockets
